import Mathlib

/-!
Shallow embedding of the deterministic validation and reconciliation engine of
the `validador-crm` repository (modules `contract_clause_validator.py`,
`contract_fields_validator.py`, `contract_pipeline.py`, `crm_validator.py`),
together with proofs settling the behavioural claims about it.

Modelling conventions:
* Python strings are modelled as `String` / `List Char`; character-level
  operations (`str.lower`, `\s` of the `re` module, `str.strip`) are modelled
  on ASCII code points, which is the fragment the repository's data exercises.
* Python numbers (`int`/`float`) are modelled as `Rat`; binary floating point
  rounding is idealised to exact rational arithmetic.
* Python dicts are modelled as insertion-ordered association lists where an
  update keeps the position of an existing key (`dinsert`), matching the
  iteration-order semantics of `dict`.
* Error messages built with f-strings are modelled as inductive constructors
  carrying the interpolated runtime values, so that the identity of a
  diagnostic is preserved without modelling `repr` of floats.
* `raise` / exceptions are modelled with `Except`.
-/

namespace ValidadorCRM

/-! ## Python character primitives (ASCII fragment) -/

/-- `str.lower` on one character: ASCII uppercase letters are shifted by 32,
everything else is fixed (non-ASCII case folding is outside the model). -/
def pyLowerChar (c : Char) : Char :=
  if 65 ≤ c.toNat ∧ c.toNat ≤ 90 then Char.ofNat (c.toNat + 32) else c

/-- `str.upper` on one character (ASCII fragment). -/
def pyUpperChar (c : Char) : Char :=
  if 97 ≤ c.toNat ∧ c.toNat ≤ 122 then Char.ofNat (c.toNat - 32) else c

/-- The characters matched by the regex class `\s` (and stripped by
`str.strip()`): space, tab, newline, carriage return, vertical tab, form
feed.  Unicode whitespace beyond ASCII is outside the model. -/
def ehEspaco (c : Char) : Bool :=
  c.toNat = 32 || c.toNat = 9 || c.toNat = 10 || c.toNat = 13 ||
  c.toNat = 11 || c.toNat = 12

/-- A decimal digit, the regex class `\d` (ASCII fragment). -/
def ehDigito (c : Char) : Bool :=
  48 ≤ c.toNat && c.toNat ≤ 57

/-- `str.strip()` on a character list: drop leading and trailing whitespace. -/
def tiraBordas (l : List Char) : List Char :=
  ((l.dropWhile (fun c => ehEspaco c)).reverse.dropWhile (fun c => ehEspaco c)).reverse

/-- `str.strip()`. -/
def pyStrip (s : String) : String :=
  ⟨tiraBordas s.data⟩

/-- `str.lower()`. -/
def pyLower (s : String) : String :=
  ⟨s.data.map pyLowerChar⟩

/-- `str.upper()`. -/
def pyUpper (s : String) : String :=
  ⟨s.data.map pyUpperChar⟩

/-- Replace each maximal run of whitespace by a single space: the effect of
`re.sub(r"\s+", " ", texto)`.  Of a run only the last character survives,
rewritten to a plain space. -/
def colapsaEspacos : List Char → List Char
  | [] => []
  | [c] => if ehEspaco c then [' '] else [c]
  | c :: d :: rest =>
    if ehEspaco c && ehEspaco d then colapsaEspacos (d :: rest)
    else (if ehEspaco c then ' ' else c) :: colapsaEspacos (d :: rest)

/-- Core of `normalizar_texto` on character lists: lower-case, collapse
whitespace runs, strip the borders (`contract_clause_validator.py`, lines
47-56). -/
def normLista (l : List Char) : List Char :=
  tiraBordas (colapsaEspacos (l.map pyLowerChar))

/-- `normalizar_texto` of `contract_clause_validator.py`. -/
def normalizar_texto (s : String) : String :=
  ⟨normLista s.data⟩

/-- Substring test: Python's `sub in s` for strings (contiguous sublist). -/
def contemSub (sub s : List Char) : Bool :=
  decide (sub <:+: s)

/-! ## Python dict as an insertion-ordered association list -/

/-- `d.get(k)` / `d[k]`. -/
def dget {α : Type} (d : List (String × α)) (k : String) : Option α :=
  match d with
  | [] => none
  | (k1, v) :: rest => if k1 = k then some v else dget rest k

/-- `d[k] = v`: an existing key keeps its position and gets the new value, a
new key is appended, matching `dict` insertion-order semantics. -/
def dinsert {α : Type} (d : List (String × α)) (k : String) (v : α) : List (String × α) :=
  match d with
  | [] => [(k, v)]
  | (k1, v1) :: rest => if k1 = k then (k, v) :: rest else (k1, v1) :: dinsert rest k v

/-! ## The clause-heading pattern `PADRAO_CLAUSULA` of
`contract_clause_validator.py` (lines 31-40) and `re.finditer`.

The pattern is `(?:^|\n)((?:[IVXLCDM]+\.)|(?:[A-Z]\.)|(?:\d+(?:\.\d+)*\.?))\s`
with `re.MULTILINE`.  The embedding implements Python's leftmost-match scan
with the exact alternation order and greedy-with-backtracking semantics of
the numeric branch. -/

/-- The Roman-numeral character class `[IVXLCDM]`. -/
def ehRomano (c : Char) : Bool :=
  c = 'I' || c = 'V' || c = 'X' || c = 'L' || c = 'C' || c = 'D' || c = 'M'

/-- The character class `[A-Z]`. -/
def ehMaiuscula (c : Char) : Bool :=
  65 ≤ c.toNat && c.toNat ≤ 90

/-- Whether a stream starts with a `\s` character. -/
def cabecaEspaco (u : List Char) : Bool :=
  match u with
  | c :: _ => ehEspaco c
  | [] => false

/-- Finish the numeric branch: the optional `\.?` (greedy, so the dot is
preferred) followed by the mandatory `\s` lookahead of the overall pattern.
Returns the final group and the stream starting at the `\s` character. -/
def tentaFim (g : List Char) (u : List Char) : Option (List Char × List Char) :=
  match u with
  | '.' :: v => if cabecaEspaco v then some (g ++ ['.'], v) else none
  | _ => if cabecaEspaco u then some (g, u) else none

/-- The `(\.\d+)*` tail of the numeric branch, greedy with backtracking:
deepest iteration count is tried first, and on failure one iteration is
given back at a time, each level retrying `\.?` then the `\s` check.  The
fuel argument only serves structural recursion; every iteration consumes at
least two characters of `u`, so `u.length + 1` fuel is never exhausted. -/
def numericoRec : Nat → List Char → List Char → Option (List Char × List Char)
  | 0, g, u => tentaFim g u
  | fuel + 1, g, u =>
    match u with
    | '.' :: rest =>
      let ds := rest.takeWhile ehDigito
      if ds.isEmpty then tentaFim g ('.' :: rest)
      else
        match numericoRec fuel (g ++ '.' :: ds) (rest.drop ds.length) with
        | some r => some r
        | none => tentaFim g ('.' :: rest)
    | _ => tentaFim g u

/-- The branch `\d+(\.\d+)*\.?` followed by the `\s` check.  The leading
`\d+` is effectively atomic: shortening it puts a digit where `\.`, `\.?`
or `\s` would have to match, so only the maximal run can succeed. -/
def ramoNumerico (u : List Char) : Option (List Char × List Char) :=
  let d1 := u.takeWhile ehDigito
  if d1.isEmpty then none else numericoRec (u.length + 1) d1 (u.drop d1.length)

/-- The branch `[IVXLCDM]+\.` followed by the `\s` check.  The run is
effectively atomic: a shorter run puts a Roman character where `\.` would
have to match. -/
def ramoRomano (u : List Char) : Option (List Char × List Char) :=
  let r := u.takeWhile ehRomano
  if r.isEmpty then none
  else
    match u.drop r.length with
    | '.' :: v => if cabecaEspaco v then some (r ++ ['.'], v) else none
    | _ => none

/-- The branch `[A-Z]\.` followed by the `\s` check. -/
def ramoLetra (u : List Char) : Option (List Char × List Char) :=
  match u with
  | c :: '.' :: v => if ehMaiuscula c && cabecaEspaco v then some ([c, '.'], v) else none
  | _ => none

/-- The captured group: the three branches in the pattern's alternation
order, each already combined with the mandatory `\s` that follows the
group. -/
def grupoMarcador (u : List Char) : Option (List Char × List Char) :=
  match ramoRomano u with
  | some r => some r
  | none =>
    match ramoLetra u with
    | some r => some r
    | none => ramoNumerico u

/-- One anchored attempt of the full pattern at position `p` of `s`: the
`(?:^|\n)` prefix (the zero-width `^` alternative first — under
`re.MULTILINE` it matches at the start and after a newline — then the
newline-consuming alternative), then the group, then `\s`.  Returns the
group and the exclusive end position of the whole match. -/
def tentaPosicao (s : List Char) (p : Nat) : Option (List Char × Nat) :=
  let u := s.drop p
  let corpo : List Char → Nat → Option (List Char × Nat) := fun v off =>
    (grupoMarcador v).map (fun gr => (gr.1, p + off + gr.1.length + 1))
  let viaCircunflexo :=
    if p = 0 ∨ s.getD (p - 1) ' ' = '\n' then corpo u 0 else none
  match viaCircunflexo with
  | some r => some r
  | none =>
    match u with
    | '\n' :: v => corpo v 1
    | _ => none

/-- `re.finditer`: repeatedly find the leftmost match at or after the scan
position, then continue at the match's end (every match here is at least two
characters long, so the scan position strictly increases and the fuel
`s.length + 1` is sufficient). -/
def acharMatchesAux (s : List Char) : Nat → Nat → List (Nat × List Char × Nat)
  | 0, _ => []
  | fuel + 1, p =>
    if s.length ≤ p then []
    else
      match tentaPosicao s p with
      | some (g, e) => (p, g, e) :: acharMatchesAux s fuel e
      | none => acharMatchesAux s fuel (p + 1)

/-- All matches of `PADRAO_CLAUSULA` with their start, group and end. -/
def acharMatches (s : List Char) : List (Nat × List Char × Nat) :=
  acharMatchesAux s (s.length + 1) 0

/-- `marcador.rstrip "."` — drop all trailing periods of the group. -/
def rstripPonto (g : List Char) : List Char :=
  (g.reverse.dropWhile (fun c => c = '.')).reverse

/-- The (marker, normalized content) pairs in match order: the content of a
match runs from its end to the start of the next match (or the end of the
text), exactly as in `separar_clausulas` (`contract_clause_validator.py`,
lines 59-79). -/
def paresClausulasAux (s : List Char) : List (Nat × List Char × Nat) → List (String × String)
  | [] => []
  | m :: rest =>
    let fim :=
      match rest with
      | [] => s.length
      | m2 :: _ => m2.1
    (⟨rstripPonto m.2.1⟩, ⟨normLista ((s.take fim).drop m.2.2)⟩) :: paresClausulasAux s rest

def paresClausulas (texto : String) : List (String × String) :=
  paresClausulasAux texto.data (acharMatches texto.data)

/-- `separar_clausulas`: build the clause map, later occurrences of a marker
overwriting earlier ones. -/
def separar_clausulas (texto : String) : List (String × String) :=
  (paresClausulas texto).foldl (fun m kv => dinsert m kv.1 kv.2) []

/-! ## `difflib.SequenceMatcher(None, a, b).ratio()`

Embedded from CPython 3.11 `difflib.py`.  With `isjunk = None` the junk set
`bjunk` is empty, so the two junk-extension loops of `find_longest_match`
never fire and are omitted; the "popular" autojunk purge (elements of `b`
occurring more than `len(b)//100 + 1` times when `len(b) >= 200`) is
modelled exactly.  Fuel arguments make every recursion structural so the
functions evaluate inside the kernel; each fuel bound strictly exceeds the
number of iterations the mirrored Python loop can make. -/

/-- A matching block `(i, j, k)`: `a[i:i+k] == b[j:j+k]`. -/
structure Bloco where
  i : Nat
  j : Nat
  k : Nat
deriving DecidableEq

/-- `b2j.setdefault(elt, []).append(i)`. -/
def b2jAcrescenta (m : List (Char × List Nat)) (c : Char) (idx : Nat) :
    List (Char × List Nat) :=
  match m with
  | [] => [(c, [idx])]
  | (c1, js) :: rest =>
    if c1 = c then (c1, js ++ [idx]) :: rest else (c1, js) :: b2jAcrescenta rest c idx

def constroiB2jAux (i : Nat) (m : List (Char × List Nat)) :
    List Char → List (Char × List Nat)
  | [] => m
  | c :: rest => constroiB2jAux (i + 1) (b2jAcrescenta m c i) rest

/-- The `__chain_b` map from elements of `b` to their ascending index lists. -/
def constroiB2j (b : List Char) : List (Char × List Nat) :=
  constroiB2jAux 0 [] b

/-- The autojunk purge of `__chain_b`. -/
def purgaPopulares (m : List (Char × List Nat)) (n : Nat) : List (Char × List Nat) :=
  if 200 ≤ n then m.filter (fun kv => kv.2.length ≤ n / 100 + 1) else m

def b2jDe (b : List Char) : List (Char × List Nat) :=
  purgaPopulares (constroiB2j b) b.length

/-- `b2j.get(c, [])`. -/
def jsDe (m : List (Char × List Nat)) (c : Char) : List Nat :=
  match m with
  | [] => []
  | (c1, js) :: rest => if c1 = c then js else jsDe rest c

/-- `j2len.get(j, 0)`. -/
def parBusca (m : List (Nat × Nat)) (j : Nat) : Nat :=
  match m with
  | [] => 0
  | (j1, k) :: rest => if j1 = j then k else parBusca rest j

/-- `newj2len[j] = k`. -/
def parAcrescenta (m : List (Nat × Nat)) (j k : Nat) : List (Nat × Nat) :=
  match m with
  | [] => [(j, k)]
  | (j1, k1) :: rest =>
    if j1 = j then (j, k) :: rest else (j1, k1) :: parAcrescenta rest j k

/-- The chain length `k = j2len.get(j-1, 0) + 1` of the inner loop; for
`j = 0` Python looks up the absent key `-1`. -/
def passoK (prev : List (Nat × Nat)) (j : Nat) : Nat :=
  (if j = 0 then 0 else parBusca prev (j - 1)) + 1

/-- `if k > bestsize: besti, bestj, bestsize = i-k+1, j-k+1, k`. -/
def atualizaMelhor (best : Bloco) (i j k : Nat) : Bloco :=
  if best.k < k then Bloco.mk (i + 1 - k) (j + 1 - k) k else best

/-- The inner loop of `find_longest_match` over `b2j.get(a[i], [])`:
`continue` below `blo`, `break` at `bhi`, chain lengths through the previous
row, and update the best block on a strict improvement. -/
def linhaJs (prev : List (Nat × Nat)) (i blo bhi : Nat) :
    List Nat → List (Nat × Nat) → Bloco → List (Nat × Nat) × Bloco
  | [], cur, best => (cur, best)
  | j :: js, cur, best =>
    if j < blo then linhaJs prev i blo bhi js cur best
    else if bhi ≤ j then (cur, best)
    else
      linhaJs prev i blo bhi js (parAcrescenta cur j (passoK prev j))
        (atualizaMelhor best i j (passoK prev j))

/-- The outer loop `for i in range(alo, ahi)` of `find_longest_match`,
written with the row index and a countdown. -/
def lacoLinhas (a : List Char) (b2j : List (Char × List Nat)) (blo bhi : Nat) :
    Nat → Nat → List (Nat × Nat) → Bloco → Bloco
  | _, 0, _, best => best
  | i, m + 1, prev, best =>
    lacoLinhas a b2j blo bhi (i + 1) m
      (linhaJs prev i blo bhi (jsDe b2j (a.getD i ' ')) [] best).1
      (linhaJs prev i blo bhi (jsDe b2j (a.getD i ' ')) [] best).2

/-- The backward extension loop (`bjunk` is empty, so `not isbjunk(...)` is
always true).  The fuel is the number of possible decrements. -/
def estendeTras (a b : List Char) (alo blo : Nat) : Nat → Bloco → Bloco
  | 0, m => m
  | fuel + 1, m =>
    if alo < m.i ∧ blo < m.j ∧ a.getD (m.i - 1) ' ' = b.getD (m.j - 1) ' '
    then estendeTras a b alo blo fuel ⟨m.i - 1, m.j - 1, m.k + 1⟩
    else m

/-- The forward extension loop. -/
def estendeFrente (a b : List Char) (ahi bhi i j : Nat) : Nat → Nat → Nat
  | 0, k => k
  | fuel + 1, k =>
    if i + k < ahi ∧ j + k < bhi ∧ a.getD (i + k) ' ' = b.getD (j + k) ' '
    then estendeFrente a b ahi bhi i j fuel (k + 1)
    else k

/-- The main loop followed by the backward extension. -/
def melhorEstendido (a b : List Char) (b2j : List (Char × List Nat))
    (alo ahi blo bhi : Nat) : Bloco :=
  estendeTras a b alo blo (lacoLinhas a b2j blo bhi alo (ahi - alo) [] ⟨alo, blo, 0⟩).i
    (lacoLinhas a b2j blo bhi alo (ahi - alo) [] ⟨alo, blo, 0⟩)

/-- `find_longest_match(alo, ahi, blo, bhi)` with an empty junk set. -/
def find_longest_match (a b : List Char) (b2j : List (Char × List Nat))
    (alo ahi blo bhi : Nat) : Bloco :=
  ⟨(melhorEstendido a b b2j alo ahi blo bhi).i,
   (melhorEstendido a b b2j alo ahi blo bhi).j,
   estendeFrente a b ahi bhi (melhorEstendido a b b2j alo ahi blo bhi).i
     (melhorEstendido a b b2j alo ahi blo bhi).j ahi
     (melhorEstendido a b b2j alo ahi blo bhi).k⟩

/-- The sum of the sizes of the blocks produced by `get_matching_blocks`
(the queue order, the final sort and the merging of adjacent blocks do not
change the sum, so the recursive decomposition is summed directly).  Each
recursive call strictly shrinks `(ahi - alo) + (bhi - blo)`, so the fuel
`a.length + b.length + 1` of the top-level call is never exhausted. -/
def somaBlocosCom (a b : List Char) (b2j : List (Char × List Nat))
    (resto : Nat → Nat → Nat → Nat → Nat) (alo ahi blo bhi : Nat) (m : Bloco) : Nat :=
  if m.k = 0 then 0
  else
    (if alo < m.i ∧ blo < m.j then resto alo m.i blo m.j else 0) +
    m.k +
    (if m.i + m.k < ahi ∧ m.j + m.k < bhi then resto (m.i + m.k) ahi (m.j + m.k) bhi else 0)

def somaBlocos (a b : List Char) (b2j : List (Char × List Nat)) :
    Nat → Nat → Nat → Nat → Nat → Nat
  | 0, _, _, _, _ => 0
  | fuel + 1, alo, ahi, blo, bhi =>
    somaBlocosCom a b b2j (somaBlocos a b b2j fuel) alo ahi blo bhi
      (find_longest_match a b b2j alo ahi blo bhi)

/-- `SequenceMatcher(None, a, b).ratio()` on character lists, including the
`_calculate_ratio` convention that two empty sequences have ratio 1. -/
def ratioListas (a b : List Char) : Rat :=
  if a.length + b.length = 0 then 1
  else
    (2 * (somaBlocos a b (b2jDe b) (a.length + b.length + 1) 0 a.length 0 b.length) : Rat) /
      ((a.length : Rat) + (b.length : Rat))

/-- `calcular_similaridade` of `contract_clause_validator.py` (lines 82-94):
both inputs are normalized, then compared with `SequenceMatcher.ratio`. -/
def calcular_similaridade (texto_a texto_b : String) : Rat :=
  ratioListas (normLista texto_a.data) (normLista texto_b.data)

/-! ### Specification-side notions used by the proofs about the matcher -/

/-- The slice `l[lo:hi]`. -/
def fatia (l : List Char) (lo hi : Nat) : List Char :=
  (l.take hi).drop lo

/-- A block lies inside the ranges `[alo, ahi)` × `[blo, bhi)`. -/
def BlocoOk (alo ahi blo bhi : Nat) (m : Bloco) : Prop :=
  alo ≤ m.i ∧ m.i + m.k ≤ ahi ∧ blo ≤ m.j ∧ m.j + m.k ≤ bhi

/-- The content matched by a block really is equal position by position. -/
def BlocoCont (a b : List Char) (m : Bloco) : Prop :=
  ∀ t < m.k, a.getD (m.i + t) ' ' = b.getD (m.j + t) ' '

/-- The indices of the occurrences of `c` in `l`, in ascending order,
starting the numbering at `i`. -/
def posicoesDesde (i : Nat) (l : List Char) (c : Char) : List Nat :=
  match l with
  | [] => []
  | x :: r => (if x = c then [i] else []) ++ posicoesDesde (i + 1) r c

/-- A position of `b` that survived the autojunk purge: it is listed in the
`b2j` entry of its own character. -/
@[reducible] def NaoPurgado (b2j : List (Char × List Nat)) (l : List Char) (x : Nat) : Prop :=
  x ∈ jsDe b2j (l.getD x ' ')

/-- The length of the maximal run of unpurged positions ending at `x`. -/
def corrida (b2j : List (Char × List Nat)) (l : List Char) : Nat → Nat
  | 0 => if 0 ∈ jsDe b2j (l.getD 0 ' ') then 1 else 0
  | x + 1 =>
    if (x + 1) ∈ jsDe b2j (l.getD (x + 1) ' ') then corrida b2j l x + 1 else 0

/-! ## Errors raised by the modules, as an explicit error type

Python exceptions become `Except PyErr`.  Each constructor stands for one
`raise` site; the interpolated data of the f-string message is carried as
fields. -/

inductive PyErr where
  /-- `ValueError` of `_carregar_modelo_base`: the model is not a key of
  `ARQUIVOS_BASE` (`contract_clause_validator.py`, lines 114-118). -/
  | modeloNaoReconhecido (modelo : String) : PyErr
  /-- `FileNotFoundError` of `_carregar_modelo_base`: the base file is not at
  the configured path (`contract_clause_validator.py`, lines 124-128). -/
  | arquivoNaoEncontrado (caminho nome_arquivo diretorio : String) : PyErr
  /-- `ValueError` of `validar_campos_contrato`: field `modelo` missing or not
  a non-empty string (`contract_fields_validator.py`, line 189). -/
  | modeloAusenteOuInvalido : PyErr
  /-- `ValueError` of `validar_campos_contrato`: field `dados` missing or not
  a dict (`contract_fields_validator.py`, line 191). -/
  | dadosNaoDicionario : PyErr
  /-- `ValueError` of `validar_campos_contrato`: the model is not a key of
  `CAMPOS_OBRIGATORIOS` (`contract_fields_validator.py`, lines 192-196). -/
  | modeloNaoReconhecidoCampos (modelo : String) : PyErr
  /-- `ValueError` of `executar_pipeline_contrato`: empty contract text
  (`contract_pipeline.py`, lines 193-194). -/
  | textoContratoVazio : PyErr
  /-- `TypeError` raised by Python when a call does not supply a required
  positional parameter of the callee. -/
  | argumentoObrigatorioFaltando (funcao : String) (parametros : List String) : PyErr
  /-- `AttributeError` raised when `.get` is invoked on a non-dict value. -/
  | semAtributoGet : PyErr
  deriving DecidableEq

/-! ## `contract_clause_validator.py`: configuration and public API

The filesystem is passed explicitly as an association list from paths to
file contents; `Path(__file__).parent` becomes the extra parameter
`diretorioModulo`.  Path joining is modelled as concatenation with `/`. -/

def ARQUIVOS_BASE : List (String × String) :=
  [("novo", "modelo_novo_base.txt"),
   ("antigo_v13", "modelo_antigo_base.txt")]

def SIMILARIDADE_MINIMA : Rat := 97 / 100

def PALAVRAS_CRITICAS : List String :=
  ["multa", "prazo", "rescisão", "rescisao", "reajuste"]

/-- `diretorio = Path(diretorio_base) if diretorio_base else Path(__file__).parent`:
Python truthiness makes both `None` and the empty string fall back to the
module directory. -/
def diretorioEfetivo (diretorio_base : Option String) (diretorioModulo : String) : String :=
  match diretorio_base with
  | some d => if d = "" then diretorioModulo else d
  | none => diretorioModulo

/-- `_carregar_modelo_base` (`contract_clause_validator.py`, lines 101-130). -/
def _carregar_modelo_base (modelo : String) (diretorio_base : Option String)
    (diretorioModulo : String) (fs : List (String × String)) : Except PyErr String :=
  match dget ARQUIVOS_BASE modelo with
  | none => .error (.modeloNaoReconhecido modelo)
  | some nome_arquivo =>
    let diretorio := diretorioEfetivo diretorio_base diretorioModulo
    let caminho := diretorio ++ "/" ++ nome_arquivo
    match dget fs caminho with
    | none => .error (.arquivoNaoEncontrado caminho nome_arquivo diretorio)
    | some conteudo => .ok conteudo

/-- The keyword test of one altered marker inside `_determinar_nivel_risco`:
`any(palavra in f"{base} {contrato}".lower() for palavra in PALAVRAS_CRITICAS)`
(the result of `any` over a set does not depend on iteration order). -/
def temPalavraCritica (marcador : String)
    (clausulas_base clausulas_contrato : List (String × String)) : Bool :=
  let conteudo_base := (dget clausulas_base marcador).getD ""
  let conteudo_contrato := (dget clausulas_contrato marcador).getD ""
  let texto_combinado := pyLower (conteudo_base ++ " " ++ conteudo_contrato)
  PALAVRAS_CRITICAS.any (fun palavra => contemSub palavra.data texto_combinado.data)

/-- `_determinar_nivel_risco` (`contract_clause_validator.py`, lines 133-167).
The `for`/`return` loop over the altered markers returns `"alto"` exactly when
some altered marker passes the keyword test. -/
def _determinar_nivel_risco (clausulas_alteradas clausulas_ausentes clausulas_extras : List String)
    (clausulas_base clausulas_contrato : List (String × String)) : String :=
  if clausulas_ausentes.isEmpty = false then "alto"
  else if clausulas_extras.isEmpty = false then "alto"
  else if clausulas_alteradas.any
      (fun marcador => temPalavraCritica marcador clausulas_base clausulas_contrato) then "alto"
  else if clausulas_alteradas.isEmpty = false then "medio"
  else "baixo"

structure ResultadoClausulas where
  valido : Bool
  clausulas_alteradas : List String
  clausulas_ausentes : List String
  clausulas_extras : List String
  nivel_risco : String
  deriving DecidableEq

/-- One step of the comparison loop of `validar_clausulas` (lines 213-224):
state is the pair (alteradas, ausentes), built by appending. -/
def passoComparacao (clausulas_contrato : List (String × String))
    (ac : List String × List String) (kv : String × String) : List String × List String :=
  match dget clausulas_contrato kv.1 with
  | none => (ac.1, ac.2 ++ [kv.1])
  | some conteudo_contrato =>
    if calcular_similaridade kv.2 conteudo_contrato < SIMILARIDADE_MINIMA then
      (ac.1 ++ [kv.1], ac.2)
    else ac

/-- `validar_clausulas` (`contract_clause_validator.py`, lines 174-250). -/
def validar_clausulas (modelo texto_contrato : String) (diretorio_base : Option String)
    (diretorioModulo : String) (fs : List (String × String)) :
    Except PyErr ResultadoClausulas :=
  match _carregar_modelo_base modelo diretorio_base diretorioModulo fs with
  | .error e => .error e
  | .ok texto_base =>
    let clausulas_base := separar_clausulas texto_base
    let clausulas_contrato := separar_clausulas texto_contrato
    let par := clausulas_base.foldl (passoComparacao clausulas_contrato) ([], [])
    let clausulas_extras := clausulas_contrato.foldl
      (fun ex kv => if (dget clausulas_base kv.1).isSome then ex else ex ++ [kv.1]) []
    let nivel_risco := _determinar_nivel_risco par.1 par.2 clausulas_extras
      clausulas_base clausulas_contrato
    .ok ⟨par.2.isEmpty && clausulas_extras.isEmpty, par.1, par.2, clausulas_extras, nivel_risco⟩

/-! ## Python field values

Field values are modelled by the flat type `Valor`: `None`, `str`, `int`,
`float` (as an exact rational) and `bool` (a subclass of `int` in Python, so
it passes `isinstance(v, (int, float))`).  Nested containers as field values
are out of scope of the embedding.  The parser-result dict of the pipeline
additionally distinguishes dict-valued entries (`ValorEntrada`). -/

inductive Valor where
  | vnone : Valor
  | vstr (s : String) : Valor
  | vint (n : Int) : Valor
  | vfloat (q : Rat) : Valor
  | vbool (b : Bool) : Valor
  deriving DecidableEq

inductive ValorEntrada where
  | plano (v : Valor) : ValorEntrada
  | dicionario (d : List (String × Valor)) : ValorEntrada
  deriving DecidableEq

/-! ## `contract_fields_validator.py` -/

/-- `CAMPOS_OBRIGATORIOS` of `contract_fields_validator.py` (lines 14-45):
required fields per contract model. -/
def CAMPOS_OBRIGATORIOS : List (String × List String) :=
  [("novo",
    ["nome_escola", "razao_social", "cnpj", "email_login", "email_financeiro",
     "whatsapp", "alunos_totais", "alunos_gamificados", "implantacao",
     "assinatura", "inicio_implantacao", "inicio_cobranca", "cards_enviados"]),
   ("antigo_v13",
    ["nome_escola", "razao_social", "cnpj", "email_login", "email_financeiro",
     "whatsapp", "alunos_totais", "alunos_gamificados", "implantacao",
     "assinatura", "inicio_implantacao", "inicio_cobranca", "cards_enviados"])]

/-- `CAMPOS_NUMERICOS` (line 47).  A Python `set`; it is only used in a `for`
loop appending per-field errors, so the embedding fixes one enumeration
order and states order-insensitive (membership and count) properties. -/
def CAMPOS_NUMERICOS : List String :=
  ["alunos_totais", "alunos_gamificados", "implantacao"]

/-- `PLACEHOLDERS` (line 49): two curly braces each for the first two
entries, written here with character escapes. -/
def PLACEHOLDERS : List String :=
  ["\x7b\x7b", "\x7d\x7d", "____", "xxxxx"]

def LIMIAR_ALUNOS_BAIXO : Rat := 5

def LIMIAR_IMPLANTACAO_ZERO : Rat := 0

/-- `_e_vazio` (lines 59-65). -/
def _e_vazio (valor : Valor) : Bool :=
  match valor with
  | .vnone => true
  | .vstr s => decide (pyStrip s = "")
  | _ => false

/-- `_contem_placeholder` (lines 68-73). -/
def _contem_placeholder (valor : Valor) : Bool :=
  match valor with
  | .vstr s => PLACEHOLDERS.any (fun ph => contemSub (pyLower ph).data (pyLower s).data)
  | _ => false

/-- The errors appended by `contract_fields_validator.py`, one constructor per
`erros.append` site, carrying the interpolated data. -/
inductive ErroCampo where
  | ausenteOuVazio (campo : String) : ErroCampo
  | contemPlaceholder (campo : String) (valor : Valor) : ErroCampo
  | deveriaSerNumerico (campo : String) (valor : Valor) : ErroCampo
  | naoPodeSerNegativo (campo : String) (valor : Valor) : ErroCampo
  | gamificadosMaiorQueTotais (gamificados totais : Rat) : ErroCampo
  deriving DecidableEq

/-- The warnings appended by `_validar_numericos`. -/
inductive AvisoCampo where
  | alunosTotaisBaixo (inteiro : Int) : AvisoCampo
  | implantacaoZerada : AvisoCampo
  deriving DecidableEq

/-- `_validar_presenca` (lines 76-94): the loop appends at most one error per
required field, and `continue` skips the placeholder check of an empty
field. -/
def _validar_presenca (dados : List (String × Valor)) : List String → List ErroCampo
  | [] => []
  | campo :: resto =>
    (if _e_vazio ((dget dados campo).getD .vnone) then
      [ErroCampo.ausenteOuVazio campo]
    else if _contem_placeholder ((dget dados campo).getD .vnone) then
      [ErroCampo.contemPlaceholder campo ((dget dados campo).getD .vnone)]
    else []) ++ _validar_presenca dados resto

/-- Python `float(v)` for a value that already passed
`isinstance(v, (int, float))`; `none` when the isinstance test fails. -/
def comoNumero (valor : Valor) : Option Rat :=
  match valor with
  | .vint n => some (n : Rat)
  | .vfloat q => some q
  | .vbool b => some (if b then 1 else 0)
  | _ => none

/-- `int(q)` on a float: truncation toward zero. -/
def pyIntTrunc (q : Rat) : Int :=
  if 0 ≤ q then q.floor else -((-q).floor)

/-- One iteration of the `for campo in CAMPOS_NUMERICOS` loop of
`_validar_numericos` (lines 111-132): state is `(valores, erros)`. -/
def passoNumerico (dados : List (String × Valor))
    (st : List (String × Option Rat) × List ErroCampo) (campo : String) :
    List (String × Option Rat) × List ErroCampo :=
  match (dget dados campo).getD .vnone with
  | .vnone => (dinsert st.1 campo none, st.2)
  | valor =>
    match comoNumero valor with
    | none => (dinsert st.1 campo none, st.2 ++ [.deveriaSerNumerico campo valor])
    | some q =>
      if q < 0 then (dinsert st.1 campo none, st.2 ++ [.naoPodeSerNegativo campo valor])
      else (dinsert st.1 campo (some q), st.2)

/-- `_validar_numericos` (lines 97-157), returning the appended errors and
warnings. -/
def _validar_numericos (dados : List (String × Valor)) :
    List ErroCampo × List AvisoCampo :=
  let par := CAMPOS_NUMERICOS.foldl (passoNumerico dados) ([], [])
  let gamificados := (dget par.1 "alunos_gamificados").getD none
  let totais := (dget par.1 "alunos_totais").getD none
  let erros :=
    match gamificados, totais with
    | some g, some t => if t < g then par.2 ++ [.gamificadosMaiorQueTotais g t] else par.2
    | _, _ => par.2
  let avisos1 :=
    match totais with
    | some t =>
      if t ≤ LIMIAR_ALUNOS_BAIXO then [AvisoCampo.alunosTotaisBaixo (pyIntTrunc t)] else []
    | none => ([] : List AvisoCampo)
  let avisos :=
    match (dget par.1 "implantacao").getD none with
    | some q => if q = LIMIAR_IMPLANTACAO_ZERO then avisos1 ++ [AvisoCampo.implantacaoZerada]
                else avisos1
    | none => avisos1
  (erros, avisos)

structure ResultadoCampos where
  valido : Bool
  erros_criticos : List ErroCampo
  warnings : List AvisoCampo
  deriving DecidableEq

/-- `validar_campos_contrato` (lines 164-213).  The entry checks follow the
source order: `modelo` must be a truthy string, `dados` a dict, and `modelo` a
key of `CAMPOS_OBRIGATORIOS`. -/
def validar_campos_contrato (resultadoParser : List (String × ValorEntrada)) :
    Except PyErr ResultadoCampos :=
  match (dget resultadoParser "modelo").getD (.plano .vnone) with
  | .plano (.vstr modelo) =>
    if modelo = "" then .error .modeloAusenteOuInvalido
    else
      match (dget resultadoParser "dados").getD (.plano .vnone) with
      | .dicionario dados =>
        match dget CAMPOS_OBRIGATORIOS modelo with
        | none => .error (.modeloNaoReconhecidoCampos modelo)
        | some campos_obrigatorios =>
          let erros := _validar_presenca dados campos_obrigatorios ++
            (_validar_numericos dados).1
          .ok ⟨erros.isEmpty, erros, (_validar_numericos dados).2⟩
      | _ => .error .dadosNaoDicionario
  | _ => .error .modeloAusenteOuInvalido

/-- Whether a field error cites the given field name. -/
def citaCampo (campo : String) : ErroCampo → Bool
  | .ausenteOuVazio c => c == campo
  | .contemPlaceholder c _ => c == campo
  | .deveriaSerNumerico c _ => c == campo
  | .naoPodeSerNegativo c _ => c == campo
  | .gamificadosMaiorQueTotais _ _ => false

/-- A filled contract record whose only defect is `alunos_totais = ""`. -/
def dadosAlunosVazio : List (String × Valor) :=
  [("nome_escola", .vstr "Colegio Inovacao"),
   ("razao_social", .vstr "Instituto Educacional Ltda."),
   ("cnpj", .vstr "12.345.678/0001-90"),
   ("email_login", .vstr "admin@colegio.com.br"),
   ("email_financeiro", .vstr "fin@colegio.com.br"),
   ("whatsapp", .vstr "(31) 99999-8888"),
   ("alunos_totais", .vstr ""),
   ("alunos_gamificados", .vint 210),
   ("implantacao", .vfloat 3500),
   ("assinatura", .vstr "R$ 890,00/mes"),
   ("inicio_implantacao", .vstr "01/03/2025"),
   ("inicio_cobranca", .vstr "01/04/2025"),
   ("cards_enviados", .vstr "Sim")]

/-! ## `contract_pipeline.py`

`_to_number` cleans a string and hands it to Python `float()`.  `float()` is
modelled on its finite-decimal fragment over exact rationals: optional sign,
decimal digits with optional point, optional decimal exponent, `_` separators
between digits, surrounding whitespace.  The spellings `inf`/`infinity`/`nan`
have no rational value and are modelled as parse failure, and the
decimal-to-binary rounding of IEEE doubles is not applied (values are kept
exact). -/

/-- Underscore placement check of Python numeric literals: every `_` must sit
directly between two digits.  `prev` is the preceding character. -/
def sublinhadosOk : Option Char → List Char → Bool
  | _, [] => true
  | prev, c :: resto =>
    if c = '_' then
      (match prev with | some p => ehDigito p | none => false) &&
      (match resto with | n :: _ => ehDigito n | [] => false) &&
      sublinhadosOk (some c) resto
    else sublinhadosOk (some c) resto

/-- The value of a digit string. -/
def valorDigitos (l : List Char) : Nat :=
  l.foldl (fun a c => 10 * a + (c.toNat - 48)) 0

/-- Take an optional leading sign: `(negative?, rest)`. -/
def leSinal : List Char → (Bool × List Char)
  | '+' :: r => (false, r)
  | '-' :: r => (true, r)
  | l => (false, l)

/-- Split at the first `e`/`E` (exponent marker). -/
def divideExp : List Char → (List Char × Option (List Char))
  | [] => ([], none)
  | c :: r =>
    if c = 'e' ∨ c = 'E' then ([], some r)
    else
      match divideExp r with
      | (p, rest) => (c :: p, rest)

/-- Split at the first occurrence of `sep`. -/
def divideUma (sep : Char) : List Char → (List Char × Option (List Char))
  | [] => ([], none)
  | c :: r =>
    if c = sep then ([], some r)
    else
      match divideUma sep r with
      | (p, rest) => (c :: p, rest)

/-- The rational value of a parsed decimal literal:
`±(mant / 10^casas) · 10^(±exp)`.  All rational arithmetic of the float
parser is concentrated here, on plain `Nat`/`Bool` arguments. -/
def ratDe (neg : Bool) (mant casas : Nat) (negExp : Bool) (exp : Nat) : Rat :=
  let base : Rat := (mant : Rat) / ((10 : Rat) ^ casas)
  let v : Rat := if negExp then base / ((10 : Rat) ^ exp) else base * ((10 : Rat) ^ exp)
  if neg then -v else v

/-- Python `float()` on a character list (finite-decimal fragment, see the
section comment). -/
def pyFloatDeLista (l0 : List Char) : Option Rat :=
  let l1 := tiraBordas l0
  if sublinhadosOk none l1 = false then none
  else
    let l := l1.filter (fun c => c ≠ '_')
    let sl := leSinal l
    let me := divideExp sl.2
    let ifr := divideUma '.' me.1
    let fp := ifr.2.getD []
    if ifr.1.all ehDigito ∧ fp.all ehDigito ∧ 0 < ifr.1.length + fp.length then
      match me.2 with
      | none =>
        some (ratDe sl.1 (valorDigitos ifr.1 * 10 ^ fp.length + valorDigitos fp)
          fp.length false 0)
      | some e =>
        let se := leSinal e
        if se.2 ≠ [] ∧ se.2.all ehDigito then
          some (ratDe sl.1 (valorDigitos ifr.1 * 10 ^ fp.length + valorDigitos fp)
            fp.length se.1 (valorDigitos se.2))
        else none
    else none

/-- Python `float()` on a string. -/
def pyFloat (s : String) : Option Rat :=
  pyFloatDeLista s.data

/-- `alvo` is a prefix of the list. -/
def ehPrefixoDe : List Char → List Char → Bool
  | [], _ => true
  | _ :: _, [] => false
  | a :: as, b :: bs => a == b && ehPrefixoDe as bs

/-- `str.replace`: replace non-overlapping occurrences left to right.  The
fuel is the length of the subject; each step consumes at least one character
when the target is non-empty.  (Python's empty-target replace inserts at every
boundary; the module only replaces non-empty targets, and the embedding keeps
the string unchanged for an empty target.) -/
def substituiAux (alvo novo : List Char) : Nat → List Char → List Char
  | 0, s => s
  | _ + 1, [] => []
  | fuel + 1, c :: resto =>
    if alvo ≠ [] ∧ ehPrefixoDe alvo (c :: resto) = true then
      novo ++ substituiAux alvo novo fuel ((c :: resto).drop alvo.length)
    else c :: substituiAux alvo novo fuel resto

def substitui (s alvo novo : String) : String :=
  ⟨substituiAux alvo.data novo.data s.data.length s.data⟩

/-- Python `str.split(sep)`: all parts, empty parts kept. -/
def divideTodos (sep : Char) : List Char → List (List Char)
  | [] => [[]]
  | c :: r =>
    if c = sep then [] :: divideTodos sep r
    else
      match divideTodos sep r with
      | [] => [[c]]
      | p :: ps => (c :: p) :: ps

/-- `_to_number` (`contract_pipeline.py`, lines 26-72): locale-tolerant
conversion to a number; `None` when the conversion fails. -/
def _to_number (valor : Valor) : Option Rat :=
  match valor with
  | .vnone => none
  | .vint n => some (n : Rat)
  | .vfloat q => some q
  | .vbool b => some (if b then 1 else 0)
  | .vstr s =>
    let texto1 := pyStrip s
    let texto2 := pyStrip (substitui texto1 "R$" "")
    let texto3 := substitui texto2 " " ""
    let texto4 :=
      if texto3.data.contains ',' then
        substitui (substitui texto3 "." "") "," "."
      else if texto3.data.contains '.' then
        if ((divideTodos '.' texto3.data).drop 1).all (fun p => p.length == 3) then
          substitui texto3 "." ""
        else texto3
      else texto3
    pyFloat texto4

/-- The warnings of `comparar_crm_contrato`, carrying the label and the two
raw values interpolated into the message. -/
inductive AvisoCrm where
  | divergente (rotulo : String) (valCrm valContrato : Valor) : AvisoCrm
  deriving DecidableEq

/-- The `comparacoes` table (`contract_pipeline.py`, lines 101-112):
`(campo_crm, campo_contrato, label)`. -/
def comparacoes : List (String × String × String) :=
  [("numero_alunos", "alunos_totais", "Número de alunos"),
   ("valor_implantacao", "implantacao", "Valor de implantação")]

/-- One iteration of the comparison loop (lines 114-128). -/
def passoComparacaoCrm (dados_crm dados_contrato : List (String × Valor))
    (ws : List AvisoCrm) (t : String × String × String) : List AvisoCrm :=
  match _to_number ((dget dados_crm t.1).getD .vnone),
        _to_number ((dget dados_contrato t.2.1).getD .vnone) with
  | some n1, some n2 =>
    if n1 = n2 then ws
    else ws ++ [.divergente t.2.2 ((dget dados_crm t.1).getD .vnone)
           ((dget dados_contrato t.2.1).getD .vnone)]
  | _, _ => ws

/-- `comparar_crm_contrato` (`contract_pipeline.py`, lines 75-130). -/
def comparar_crm_contrato (dados_crm dados_contrato : List (String × Valor)) :
    List AvisoCrm :=
  comparacoes.foldl (passoComparacaoCrm dados_crm dados_contrato) []

/-- The expected warnings of one comparison pair, written from the
specification for comparison with the loop: a warning exactly when both sides
parse and the parsed numbers differ. -/
def avisoEsperado (campo_crm campo_contrato rotulo : String)
    (dados_crm dados_contrato : List (String × Valor)) : List AvisoCrm :=
  match _to_number ((dget dados_crm campo_crm).getD .vnone),
        _to_number ((dget dados_contrato campo_contrato).getD .vnone) with
  | some n1, some n2 =>
    if n1 = n2 then []
    else [.divergente rotulo ((dget dados_crm campo_crm).getD .vnone)
           ((dget dados_contrato campo_contrato).getD .vnone)]
  | _, _ => []

/-- `_determinar_status_final` (`contract_pipeline.py`, lines 137-155). -/
def _determinar_status_final (validacao_campos : ResultadoCampos)
    (warnings_crm_contrato : List AvisoCrm) : String :=
  if validacao_campos.valido = false then "invalido"
  else if warnings_crm_contrato.isEmpty = false then "revisao_manual"
  else "valido"

structure ResultadoPipeline where
  dados_extraidos : List (String × Valor)
  validacao_campos : ResultadoCampos
  warnings_crm_contrato : List AvisoCrm
  status_final : String
  deriving DecidableEq

/-- The required positional parameters of `extrair_dados_contrato`
(`contract_parser.py`, lines 265-269). -/
def parametrosObrigatoriosExtrator : List String :=
  ["texto_bruto", "modelo_detectado"]

/-- The keyword arguments actually passed at the call site in
`executar_pipeline_contrato` (`contract_pipeline.py`, lines 197-200). -/
def argumentosPassadosPipeline : List String :=
  ["texto_bruto", "api_key"]

/-- `executar_pipeline_contrato` (`contract_pipeline.py`, lines 162-223).
Python binds call arguments before running the callee, raising `TypeError`
when a required parameter is missing; the outcome the call would have on a
repaired call site is abstracted as the oracle `resultadoExtrator`.  The
`.get("dados", {})` result is `.get`-able only if it is a dict, hence the
`semAtributoGet` branch. -/
def executar_pipeline_contrato (texto_contrato : String)
    (dados_crm : Option (List (String × Valor)))
    (resultadoExtrator : Except PyErr (List (String × ValorEntrada))) :
    Except PyErr ResultadoPipeline :=
  if texto_contrato = "" ∨ pyStrip texto_contrato = "" then
    .error .textoContratoVazio
  else if (parametrosObrigatoriosExtrator.filter
      (fun p => !argumentosPassadosPipeline.contains p)) ≠ [] then
    .error (.argumentoObrigatorioFaltando "extrair_dados_contrato"
      (parametrosObrigatoriosExtrator.filter
        (fun p => !argumentosPassadosPipeline.contains p)))
  else
    match resultadoExtrator with
    | .error e => .error e
    | .ok resultadoParser =>
      match (dget resultadoParser "dados").getD (.dicionario []) with
      | .dicionario dados_extraidos =>
        match validar_campos_contrato
            (dinsert resultadoParser "modelo" (.plano (.vstr "comercial"))) with
        | .error e => .error e
        | .ok validacao_campos =>
          .ok ⟨dados_extraidos, validacao_campos,
            comparar_crm_contrato (dados_crm.getD []) dados_extraidos,
            _determinar_status_final validacao_campos
              (comparar_crm_contrato (dados_crm.getD []) dados_extraidos)⟩
      | .plano _ => .error .semAtributoGet

/-! ## `crm_validator.py`

`str(value)` needs a decimal printer.  `str` of an `int` is its exact decimal
form; `str` of a `float` is CPython's shortest round-trip decimal, which the
embedding models as the exact decimal expansion when the rational has one
(CPython switches to exponent notation for very large or very small
magnitudes, and a rational with an infinite decimal expansion is no IEEE
double at all — both cases are printed here as plain fallbacks and only ever
feed character-level checks, never numeric ones). -/

def natParaStringAux : Nat → Nat → List Char
  | 0, _ => []
  | fuel + 1, n =>
    if n < 10 then [Char.ofNat (48 + n)]
    else natParaStringAux fuel (n / 10) ++ [Char.ofNat (48 + n % 10)]

/-- Decimal form of a natural number (the fuel `n + 1` dominates the number of
digits). -/
def natParaString (n : Nat) : String :=
  ⟨natParaStringAux (n + 1) n⟩

def intParaString (n : Int) : String :=
  match n with
  | .ofNat m => natParaString m
  | .negSucc m => "-" ++ natParaString (m + 1)

/-- Extract the multiplicity of the prime `p` from `n`: `(count, rest)`. -/
def tiraFator (p : Nat) : Nat → Nat → Nat × Nat
  | 0, n => (0, n)
  | fuel + 1, n =>
    if n % p = 0 ∧ n ≠ 0 ∧ 2 ≤ p then
      match tiraFator p fuel (n / p) with
      | (c, r) => (c + 1, r)
    else (0, n)

def preencheZeros (k : Nat) (s : String) : String :=
  ⟨List.replicate (k - s.data.length) '0'⟩ ++ s

def tiraZerosDireita (s : String) : String :=
  match s.data.reverse.dropWhile (fun c => c == '0') with
  | [] => "0"
  | l => ⟨l.reverse⟩

/-- `str()` of a float value (see the section comment). -/
def ratParaFloatString (q : Rat) : String :=
  let sinal := if q.num < 0 then "-" else ""
  let n := q.num.natAbs
  let d := q.den
  let dois := tiraFator 2 d d
  let cinco := tiraFator 5 dois.2 dois.2
  if cinco.2 ≠ 1 then sinal ++ natParaString n ++ "/" ++ natParaString d
  else
    let k := max dois.1 cinco.1
    let digitos := n * 10 ^ k / d
    if k = 0 then sinal ++ natParaString digitos ++ ".0"
    else
      sinal ++ natParaString (digitos / 10 ^ k) ++ "." ++
        tiraZerosDireita (preencheZeros k (natParaString (digitos % 10 ^ k)))

/-- Python `str(value)`. -/
def strDeValor : Valor → String
  | .vnone => "None"
  | .vstr s => s
  | .vint n => intParaString n
  | .vfloat q => ratParaFloatString q
  | .vbool b => if b then "True" else "False"

/-- `dados.get(campo)`, with `None` for a missing key. -/
def valorDe (dados : List (String × Valor)) (campo : String) : Valor :=
  (dget dados campo).getD .vnone

/-- The recurring guard `valor is None or str(valor).strip() == ""`. -/
def eNoneOuVazia (v : Valor) : Bool :=
  match v with
  | .vnone => true
  | w => decide (pyStrip (strDeValor w) = "")

/-- Python `float(value)` on a `Valor` (`TypeError` on `None` becomes
`none`). -/
def pyFloatDe : Valor → Option Rat
  | .vint n => some (n : Rat)
  | .vfloat q => some q
  | .vbool b => some (if b then 1 else 0)
  | .vstr s => pyFloat s
  | .vnone => none

/-- Python `int(s)` on a string: optional sign and decimal digits, `_`
separators between digits, surrounding whitespace. -/
def pyIntString (s : String) : Option Int :=
  let l1 := tiraBordas s.data
  if sublinhadosOk none l1 = false then none
  else
    let l := l1.filter (fun c => c ≠ '_')
    let sl := leSinal l
    if sl.2 ≠ [] ∧ sl.2.all ehDigito then
      some (if sl.1 then -(valorDigitos sl.2 : Int) else (valorDigitos sl.2 : Int))
    else none

/-- Python `int(value)` on a `Valor` (floats truncate toward zero). -/
def pyIntDe : Valor → Option Int
  | .vint n => some n
  | .vbool b => some (if b then 1 else 0)
  | .vfloat q => some (pyIntTrunc q)
  | .vstr s => pyIntString s
  | .vnone => none

/-- `CAMPOS_OBRIGATORIOS` of `crm_validator.py` (lines 9-25); renamed with the
`_CRM` suffix because `contract_fields_validator.py` defines a constant of the
same name. -/
def CAMPOS_OBRIGATORIOS_CRM : List String :=
  ["nome", "nome_escola", "vendedor", "perfil_escola", "numero_alunos",
   "nivel_prioridade", "mrr", "arr", "dor_escola", "valor_implantacao",
   "link_contrato", "forma_implantacao", "contato_nome", "contato_telefone",
   "contato_email"]

/-- `_is_numeric` (`crm_validator.py`, lines 28-33). -/
def _is_numeric (valor : Valor) : Bool :=
  (pyFloatDe valor).isSome

/-- `_digits_only` (lines 36-37): the digits of `str(value)`. -/
def _digits_only (valor : Valor) : String :=
  ⟨(strDeValor valor).data.filter (fun c => ehDigito c)⟩

/-- `_grupo_esperado` (lines 40-50). -/
def _grupo_esperado (mrr : Rat) : String :=
  if 700 < mrr then "GRUPO A"
  else if 401 ≤ mrr then "GRUPO B"
  else if 300 ≤ mrr then "GRUPO C"
  else if 100 ≤ mrr then "GRUPO D"
  else "GRUPO E"

/-- Round to the nearest integer, ties to even (the rounding of Python
`round`). -/
def arredondaMeioPar (q : Rat) : Int :=
  let f := q.floor
  if q - (f : Rat) < 1 / 2 then f
  else if (1 / 2 : Rat) < q - (f : Rat) then f + 1
  else if f % 2 = 0 then f else f + 1

/-- Python `round(x, 10)`, modelled exactly on rationals (CPython rounds the
IEEE double; on the exact-decimal fragment the two agree). -/
def pyRound10 (q : Rat) : Rat :=
  (arredondaMeioPar (q * 10 ^ 10) : Rat) / 10 ^ 10

/-- The errors appended by `validar_crm`, one constructor per `erros.append`
site, carrying interpolated data. -/
inductive ErroCrm where
  | obrigatorioAusente (campo : String) : ErroCrm
  | alunosNaoPositivo : ErroCrm
  | alunosComDecimais : ErroCrm
  | alunosNaoInteiro : ErroCrm
  | mrrNaoNumerico : ErroCrm
  | mrrNaoPositivo : ErroCrm
  | prioridadeInconsistente (grupo : String) : ErroCrm
  | arrNaoNumerico : ErroCrm
  | arrInconsistente (esperado recebido : Rat) : ErroCrm
  | telefonePoucosDigitos (encontrados : Nat) : ErroCrm
  | emailSemArroba : ErroCrm
  | linkSemHttp : ErroCrm
  deriving DecidableEq

/-- Section 1 of `validar_crm` (lines 70-73): required fields present and
non-empty. -/
def secao1 (dados : List (String × Valor)) : List String → List ErroCrm
  | [] => []
  | campo :: resto =>
    (if eNoneOuVazia (valorDe dados campo) then [ErroCrm.obrigatorioAusente campo]
     else []) ++ secao1 dados resto

/-- Section 2 (lines 78-88): `numero_alunos` must be a positive integer. -/
def secao2 (dados : List (String × Valor)) : List ErroCrm :=
  let numero_alunos := valorDe dados "numero_alunos"
  if eNoneOuVazia numero_alunos then []
  else
    match pyIntDe numero_alunos with
    | none => [.alunosNaoInteiro]
    | some k =>
      if k ≤ 0 then [.alunosNaoPositivo]
      else
        match pyFloatDe numero_alunos with
        | some q => if (k : Rat) ≠ q then [.alunosComDecimais] else []
        | none => []

/-- The flag `mrr_valido` set by section 3 (lines 93-101). -/
def mrrValido (dados : List (String × Valor)) : Bool :=
  let mrr := valorDe dados "mrr"
  if eNoneOuVazia mrr then false
  else if _is_numeric mrr = false then false
  else
    match pyFloatDe mrr with
    | some q => decide (0 < q)
    | none => false

/-- Section 3 (lines 93-101): `mrr` numeric and positive. -/
def secao3 (dados : List (String × Valor)) : List ErroCrm :=
  let mrr := valorDe dados "mrr"
  if eNoneOuVazia mrr then []
  else if _is_numeric mrr = false then [.mrrNaoNumerico]
  else
    match pyFloatDe mrr with
    | some q => if q ≤ 0 then [.mrrNaoPositivo] else []
    | none => []

/-- Section 4 (lines 106-112): priority level coherent with `mrr`. -/
def secao4 (dados : List (String × Valor)) : List ErroCrm :=
  let nivel := valorDe dados "nivel_prioridade"
  if mrrValido dados && !(eNoneOuVazia nivel) then
    match pyFloatDe (valorDe dados "mrr") with
    | some qm =>
      if pyUpper (pyStrip (strDeValor nivel)) ≠ _grupo_esperado qm then
        [.prioridadeInconsistente (_grupo_esperado qm)]
      else []
    | none => []
  else []

/-- Section 6 (lines 117-127): `arr` must round-match `12 × mrr`. -/
def secao6 (dados : List (String × Valor)) : List ErroCrm :=
  let arr := valorDe dados "arr"
  if eNoneOuVazia arr then []
  else if _is_numeric arr = false then [.arrNaoNumerico]
  else if mrrValido dados then
    match pyFloatDe (valorDe dados "mrr"), pyFloatDe arr with
    | some qm, some qa =>
      if pyRound10 qa ≠ pyRound10 (qm * 12) then
        [.arrInconsistente (pyRound10 (qm * 12)) qa]
      else []
    | _, _ => []
  else []

/-- Section 7 (lines 132-139): phone with at least 10 digits. -/
def secao7 (dados : List (String × Valor)) : List ErroCrm :=
  let telefone := valorDe dados "contato_telefone"
  if eNoneOuVazia telefone then []
  else if (_digits_only telefone).data.length < 10 then
    [.telefonePoucosDigitos (_digits_only telefone).data.length]
  else []

/-- Section 8 (lines 144-147): e-mail must contain `@`. -/
def secao8 (dados : List (String × Valor)) : List ErroCrm :=
  let email := valorDe dados "contato_email"
  if eNoneOuVazia email then []
  else if contemSub "@".data (strDeValor email).data = false then [.emailSemArroba]
  else []

/-- Section 9 (lines 152-155): link must start with `http`. -/
def secao9 (dados : List (String × Valor)) : List ErroCrm :=
  let link := valorDe dados "link_contrato"
  if eNoneOuVazia link then []
  else if ehPrefixoDe "http".data (pyLower (pyStrip (strDeValor link))).data = false then
    [.linkSemHttp]
  else []

structure ResultadoCrm where
  status : String
  erros : List ErroCrm
  deriving DecidableEq

/-- `validar_crm` (`crm_validator.py`, lines 53-163): the sections append to
one error list in order; the status is `"valido"` exactly when it stays
empty. -/
def validar_crm (dados : List (String × Valor)) : ResultadoCrm :=
  let erros := secao1 dados CAMPOS_OBRIGATORIOS_CRM ++ secao2 dados ++ secao3 dados ++
    secao4 dados ++ secao6 dados ++ secao7 dados ++ secao8 dados ++ secao9 dados
  ⟨if erros.isEmpty then "valido" else "invalido", erros⟩

/-- Whether a CRM error is the arr-consistency error. -/
def ehArrInconsistente : ErroCrm → Bool
  | .arrInconsistente _ _ => true
  | _ => false

/-! ## Invariant predicates used by the matcher proofs -/

/-- Absence of two adjacent whitespace characters. -/
def AdjOk (l : List Char) : Prop :=
  ∀ x y : Char, ∀ pre post : List Char,
    l = pre ++ x :: y :: post → ¬(ehEspaco x = true ∧ ehEspaco y = true)

/-- Bounds carried by every entry of a row of the dynamic program, phrased
through `parBusca` (`0` meaning absence). -/
def LinhaB (alo blo bhi lim : Nat) (r : List (Nat × Nat)) : Prop :=
  ∀ j, 1 ≤ parBusca r j →
    blo ≤ j ∧ j < bhi ∧ parBusca r j + blo ≤ j + 1 ∧ parBusca r j + alo ≤ lim

/-- Entry invariant of a row: every chain of length `k` ending at `(i, j)`
witnesses `k` equal characters, and fits in the rectangle. -/
def LinhaC (a b : List Char) (i : Nat) (r : List (Nat × Nat)) : Prop :=
  ∀ j, 1 ≤ parBusca r j →
    parBusca r j ≤ j + 1 ∧ parBusca r j ≤ i + 1 ∧
    ∀ t < parBusca r j, a.getD (i - t) ' ' = b.getD (j - t) ' '

/-- Entry invariant of a row of the main loop when both sequences are the
same list `l`: each chain respects the rectangle, matches equal text, and
runs through unpurged positions only. -/
def LinhaIdEnt (l : List Char) (i : Nat) (r : List (Nat × Nat)) : Prop :=
  ∀ j, 1 ≤ parBusca r j → parBusca r j ≤ j + 1 ∧ parBusca r j ≤ i + 1 ∧
    ∀ t < parBusca r j, NaoPurgado (b2jDe l) l (j - t) ∧
      l.getD (i - t) ' ' = l.getD (j - t) ' '

/-- The previous row of the main loop at row `i` (vacuous for `i = 0`),
including the lower bound on the diagonal entry. -/
def PrevId (l : List Char) (i : Nat) (r : List (Nat × Nat)) : Prop :=
  (∀ j, 1 ≤ parBusca r j → parBusca r j ≤ j + 1 ∧ parBusca r j ≤ i ∧
    ∀ t < parBusca r j, NaoPurgado (b2jDe l) l (j - t) ∧
      l.getD (i - 1 - t) ' ' = l.getD (j - t) ' ') ∧
  (1 ≤ i → NaoPurgado (b2jDe l) l (i - 1) →
    corrida (b2jDe l) l (i - 1) ≤ parBusca r (i - 1))

end ValidadorCRM

-- THEOREMS

namespace ValidadorCRM

/-! ## Lemmas about the character primitives and the normalizer -/

theorem pyLowerChar_toNat_shift {c : Char} (h1 : 65 ≤ c.toNat) (h2 : c.toNat ≤ 90) :
    (Char.ofNat (c.toNat + 32)).toNat = c.toNat + 32 := by
  have hv : (c.toNat + 32).isValidChar := Or.inl (by omega)
  simp [Char.ofNat, hv]
  rfl

theorem pyLowerChar_idem (c : Char) : pyLowerChar (pyLowerChar c) = pyLowerChar c := by
  unfold pyLowerChar
  split
  · rename_i h
    rw [if_neg]
    rw [pyLowerChar_toNat_shift h.1 h.2]
    omega
  · rfl

theorem ehEspaco_pyLowerChar (c : Char) : ehEspaco (pyLowerChar c) = ehEspaco c := by
  unfold pyLowerChar
  split
  · rename_i h
    have hL : ehEspaco (Char.ofNat (c.toNat + 32)) = false := by
      simp only [ehEspaco, Bool.or_eq_false_iff, decide_eq_false_iff_not,
        pyLowerChar_toNat_shift h.1 h.2]
      omega
    have hR : ehEspaco c = false := by
      simp only [ehEspaco, Bool.or_eq_false_iff, decide_eq_false_iff_not]
      omega
    rw [hL, hR]
  · rfl

theorem pyLowerChar_espaco (c : Char) (h : ehEspaco c = true) : pyLowerChar c = c := by
  unfold pyLowerChar
  rw [if_neg]
  unfold ehEspaco at h
  simp only [Bool.or_eq_true, decide_eq_true_eq] at h
  omega

theorem ehEspaco_space : ehEspaco ' ' = true := by decide

theorem pyLowerChar_space : pyLowerChar ' ' = ' ' := by decide

/-- All characters of the output of `colapsaEspacos` are characters of the
input or the plain space. -/
theorem colapsaEspacos_mem {l : List Char} {c : Char} (h : c ∈ colapsaEspacos l) :
    c ∈ l ∨ c = ' ' := by
  induction l with
  | nil => simp [colapsaEspacos] at h
  | cons a t ih =>
    match t with
    | [] =>
      unfold colapsaEspacos at h
      split at h
      · simp at h; right; exact h
      · simp at h; left; simp [h]
    | b :: t2 =>
      unfold colapsaEspacos at h
      split at h
      · rcases ih h with h1 | h1
        · left; exact List.mem_cons_of_mem _ h1
        · right; exact h1
      · rcases List.mem_cons.mp h with h1 | h1
        · split at h1
          · right; exact h1
          · left; simp [h1]
        · rcases ih h1 with h2 | h2
          · left; exact List.mem_cons_of_mem _ h2
          · right; exact h2

/-- The head of `colapsaEspacos (c :: rest)` exists and is whitespace exactly
when `c` is; moreover a whitespace head is the plain space. -/
theorem colapsaEspacos_head (c : Char) (rest : List Char) :
    ∃ d tail, colapsaEspacos (c :: rest) = d :: tail ∧
      (ehEspaco d = ehEspaco c) ∧ (ehEspaco c = true → d = ' ') := by
  induction rest generalizing c with
  | nil =>
    unfold colapsaEspacos
    by_cases h : ehEspaco c = true
    · exact ⟨' ', [], by simp [h], by simp [h, ehEspaco_space], fun _ => rfl⟩
    · refine ⟨c, [], by simp [h], rfl, fun hc => absurd hc h⟩
  | cons b t ih =>
    unfold colapsaEspacos
    by_cases h : (ehEspaco c && ehEspaco b) = true
    · rw [if_pos h]
      obtain ⟨d, tail, heq, hws, hsp⟩ := ih b
      refine ⟨d, tail, heq, ?_, ?_⟩
      · simp only [Bool.and_eq_true] at h
        rw [hws, h.1, h.2]
      · intro _
        simp only [Bool.and_eq_true] at h
        exact hsp h.2
    · rw [if_neg h]
      by_cases hc : ehEspaco c = true
      · exact ⟨' ', colapsaEspacos (b :: t), by simp [hc], by simp [ehEspaco_space, hc],
          fun _ => rfl⟩
      · refine ⟨c, colapsaEspacos (b :: t), by simp [hc], rfl, fun hx => absurd hx hc⟩

/-- `colapsaEspacos` never produces two adjacent whitespace characters. -/
theorem colapsaEspacos_sem_duplo :
    ∀ l : List Char, ∀ x y : Char, ∀ pre post : List Char,
      colapsaEspacos l = pre ++ x :: y :: post → ¬(ehEspaco x = true ∧ ehEspaco y = true) := by
  intro l
  induction l with
  | nil => intro x y pre post h; simp [colapsaEspacos] at h
  | cons a t ih =>
    intro x y pre post h hxy
    match t with
    | [] =>
      unfold colapsaEspacos at h
      split at h <;> (cases pre <;> simp_all)
    | b :: t2 =>
      unfold colapsaEspacos at h
      split at h
      · exact ih x y pre post h hxy
      · rename_i hnot
        cases pre with
        | nil =>
          simp only [List.nil_append, List.cons.injEq] at h
          obtain ⟨hx, htl⟩ := h
          obtain ⟨d, tail, heq, hws, _⟩ := colapsaEspacos_head b t2
          rw [heq] at htl
          have hy : y = d := by
            have := htl
            simp only [List.cons.injEq] at this
            exact this.1.symm
          have hb : ehEspaco b = true := by
            rw [← hws, ← hy]; exact hxy.2
          have ha : ehEspaco a = true := by
            by_cases hc : ehEspaco a = true
            · exact hc
            · exfalso
              apply hc
              rw [← hx] at hxy
              split at hxy
              · rename_i hc2; exact hc2
              · exact hxy.1
          simp [ha, hb] at hnot
        | cons p ps =>
          simp only [List.cons_append, List.cons.injEq] at h
          exact ih x y ps post h.2 hxy

theorem dropWhile_eq_self_of_head {p : Char → Bool} {l : List Char}
    (h : ∀ c, l.head? = some c → p c = false) : l.dropWhile p = l := by
  cases l with
  | nil => rfl
  | cons a t =>
    rw [List.dropWhile_cons, h a rfl]
    simp


theorem adjOk_tail {a : Char} {l : List Char} (h : AdjOk (a :: l)) : AdjOk l := by
  intro x y pre post he hxy
  exact h x y (a :: pre) post (by simp [he]) hxy

theorem adjOk_suffix {s l : List Char} (hs : s <:+ l) (h : AdjOk l) : AdjOk s := by
  obtain ⟨t, ht⟩ := hs
  intro x y pre post he hxy
  exact h x y (t ++ pre) post (by rw [← ht, he]; simp) hxy

theorem adjOk_reverse {l : List Char} (h : AdjOk l) : AdjOk l.reverse := by
  intro x y pre post he hxy
  have : l = post.reverse ++ y :: x :: pre.reverse := by
    have := congrArg List.reverse he
    simpa using this
  exact h y x post.reverse pre.reverse this ⟨hxy.2, hxy.1⟩

theorem mem_dropWhile {p : Char → Bool} {l : List Char} {c : Char}
    (h : c ∈ l.dropWhile p) : c ∈ l :=
  (List.dropWhile_sublist p (l := l)).mem h

theorem tiraBordas_mem {l : List Char} {c : Char} (h : c ∈ tiraBordas l) : c ∈ l := by
  unfold tiraBordas at h
  rw [List.mem_reverse] at h
  have h2 := mem_dropWhile h
  rw [List.mem_reverse] at h2
  exact mem_dropWhile h2

theorem dropWhile_head_not {p : Char → Bool} {l : List Char} {c : Char}
    (h : (l.dropWhile p).head? = some c) : p c = false := by
  induction l with
  | nil => simp [List.dropWhile] at h
  | cons a t ih =>
    rw [List.dropWhile_cons] at h
    split at h
    · exact ih h
    · rename_i hpa
      simp only [List.head?_cons, Option.some.injEq] at h
      subst h
      exact Bool.eq_false_iff.mpr hpa

theorem head_of_nonempty_pre {l1 l2 : List Char} {c : Char} (h : l1 <+: l2)
    (hc : l1.head? = some c) : l2.head? = some c := by
  obtain ⟨t, ht⟩ := h
  cases l1 with
  | nil => simp at hc
  | cons a t1 =>
    simp only [List.head?_cons, Option.some.injEq] at hc
    subst hc
    rw [← ht]
    rfl

/-- The head of `tiraBordas l` is never whitespace. -/
theorem tiraBordas_head {l : List Char} {c : Char}
    (h : (tiraBordas l).head? = some c) : ehEspaco c = false := by
  unfold tiraBordas at h
  set A1 := l.dropWhile (fun c => ehEspaco c) with hA1
  set A2 := A1.reverse.dropWhile (fun c => ehEspaco c) with hA2
  have hsuf : A2 <:+ A1.reverse := List.dropWhile_suffix _
  have hpre : A2.reverse <+: A1 := by
    apply List.reverse_suffix.mp
    rw [List.reverse_reverse]
    exact hsuf
  have := head_of_nonempty_pre hpre h
  exact dropWhile_head_not this

/-- The last character of `tiraBordas l` is never whitespace. -/
theorem tiraBordas_last {l : List Char} {c : Char}
    (h : (tiraBordas l).getLast? = some c) : ehEspaco c = false := by
  unfold tiraBordas at h
  rw [← List.head?_reverse, List.reverse_reverse] at h
  exact dropWhile_head_not h

/-- A list without leading nor trailing whitespace is fixed by `tiraBordas`. -/
theorem tiraBordas_fix {l : List Char}
    (h1 : ∀ c, l.head? = some c → ehEspaco c = false)
    (h2 : ∀ c, l.getLast? = some c → ehEspaco c = false) :
    tiraBordas l = l := by
  unfold tiraBordas
  rw [dropWhile_eq_self_of_head h1]
  rw [dropWhile_eq_self_of_head (fun c hc => h2 c (by rwa [← List.head?_reverse]))]
  exact List.reverse_reverse l

/-- Every whitespace character produced by `colapsaEspacos` is the space. -/
theorem colapsa_so_espaco :
    ∀ l : List Char, ∀ x : Char, x ∈ colapsaEspacos l → ehEspaco x = true → x = ' ' := by
  intro l
  induction l with
  | nil => intro x h; simp [colapsaEspacos] at h
  | cons a t ih =>
    intro x hx hws
    match t with
    | [] =>
      unfold colapsaEspacos at hx
      split at hx
      · simpa using hx
      · rename_i ha
        simp only [List.mem_singleton] at hx
        subst hx
        exact absurd hws ha
    | b :: t2 =>
      unfold colapsaEspacos at hx
      split at hx
      · exact ih x hx hws
      · rcases List.mem_cons.mp hx with h1 | h1
        · subst h1
          by_cases ha : ehEspaco a = true
          · simp [ha]
          · rw [if_neg ha] at hws ⊢
            exact absurd hws ha
        · exact ih x h1 hws

/-- A list whose whitespace is only the plain space and which has no two
adjacent whitespace characters is fixed by `colapsaEspacos`. -/
theorem colapsa_fix :
    ∀ l : List Char, (∀ x ∈ l, ehEspaco x = true → x = ' ') → AdjOk l →
      colapsaEspacos l = l := by
  intro l
  induction l with
  | nil => intro _ _; rfl
  | cons a t ih =>
    intro hB hC
    match t with
    | [] =>
      unfold colapsaEspacos
      by_cases ha : ehEspaco a = true
      · rw [if_pos ha, hB a (by simp) ha]
      · rw [if_neg ha]
    | b :: t2 =>
      unfold colapsaEspacos
      have hab : ¬(ehEspaco a = true ∧ ehEspaco b = true) :=
        hC a b [] t2 rfl
      rw [if_neg (by
        intro hcontra
        simp only [Bool.and_eq_true] at hcontra
        exact hab hcontra)]
      have hrec : colapsaEspacos (b :: t2) = b :: t2 :=
        ih (fun x hx hws => hB x (List.mem_cons_of_mem _ hx) hws) (adjOk_tail hC)
      rw [hrec]
      by_cases ha : ehEspaco a = true
      · rw [if_pos ha, hB a (by simp) ha]
      · rw [if_neg ha]

/-- `AdjOk` holds for the output of `colapsaEspacos`. -/
theorem colapsa_adjOk (l : List Char) : AdjOk (colapsaEspacos l) := by
  intro x y pre post he hxy
  exact colapsaEspacos_sem_duplo l x y pre post he hxy

theorem map_lower_fix {l : List Char} (hA : ∀ c ∈ l, pyLowerChar c = c) :
    l.map pyLowerChar = l := by
  induction l with
  | nil => rfl
  | cons a t ih =>
    simp only [List.map_cons, hA a (by simp)]
    rw [ih (fun c hc => hA c (List.mem_cons_of_mem _ hc))]

theorem adjOk_tiraBordas {l : List Char} (h : AdjOk l) : AdjOk (tiraBordas l) := by
  unfold tiraBordas
  apply adjOk_reverse
  apply adjOk_suffix (List.dropWhile_suffix _)
  apply adjOk_reverse
  exact adjOk_suffix (List.dropWhile_suffix _) h

/-- `normLista` is the identity on lists satisfying the invariant of
normalized text. -/
theorem normLista_fix {l : List Char}
    (hA : ∀ c ∈ l, pyLowerChar c = c)
    (hB : ∀ c ∈ l, ehEspaco c = true → c = ' ')
    (hC : AdjOk l)
    (hD1 : ∀ c, l.head? = some c → ehEspaco c = false)
    (hD2 : ∀ c, l.getLast? = some c → ehEspaco c = false) :
    normLista l = l := by
  unfold normLista
  rw [map_lower_fix hA, colapsa_fix l hB hC, tiraBordas_fix hD1 hD2]

/-- The output of `normLista` satisfies the invariant, hence `normLista` is
idempotent. -/
theorem normLista_idem (l : List Char) : normLista (normLista l) = normLista l := by
  have hmem : ∀ c ∈ normLista l, c ∈ colapsaEspacos (l.map pyLowerChar) := by
    intro c hc
    exact tiraBordas_mem hc
  apply normLista_fix
  · intro c hc
    rcases colapsaEspacos_mem (hmem c hc) with h1 | h1
    · obtain ⟨d, _, hd⟩ := List.mem_map.mp h1
      rw [← hd]
      exact pyLowerChar_idem d
    · rw [h1]; exact pyLowerChar_space
  · intro c hc hw
    exact colapsa_so_espaco _ c (hmem c hc) hw
  · exact adjOk_tiraBordas (colapsa_adjOk (l.map pyLowerChar))
  · intro c hc
    exact tiraBordas_head hc
  · intro c hc
    exact tiraBordas_last hc

/-- C9: `normalizar_texto` is idempotent — for every string `x`,
`normalizar_texto (normalizar_texto x) = normalizar_texto x` — and it is
case- and whitespace-insensitive, witnessed by the spec's example
`normalizar_texto "A  B\nC" = normalizar_texto "a b c"`. -/
theorem C9_normalizar_texto_idempotente :
    (∀ s : String, normalizar_texto (normalizar_texto s) = normalizar_texto s) ∧
    normalizar_texto "A  B\nC" = normalizar_texto "a b c" := by
  refine ⟨fun s => ?_, by decide⟩
  show (⟨normLista (normLista s.data)⟩ : String) = ⟨normLista s.data⟩
  rw [normLista_idem]

/-! ## Lemmas about the dict model and `separar_clausulas` -/

theorem dget_dinsert {α : Type} (m : List (String × α)) (k1 : String) (v : α) (k : String) :
    dget (dinsert m k1 v) k = if k1 = k then some v else dget m k := by
  induction m with
  | nil => rfl
  | cons a rest ih =>
    obtain ⟨ka, va⟩ := a
    unfold dinsert
    by_cases h : ka = k1
    · subst h
      unfold dget
      simp only [if_pos rfl]
      by_cases hk : ka = k
      · simp [hk]
      · simp [hk, dget]
    · rw [if_neg h]
      unfold dget
      by_cases hk : ka = k
      · subst hk
        have : ¬k1 = ka := fun he => h he.symm
        simp [this]
      · simp only [if_neg hk]
        exact ih

theorem cons_getLast?_isSome {α : Type} (x : α) (xs : List α) :
    ∃ y, (x :: xs).getLast? = some y := by
  induction xs generalizing x with
  | nil => exact ⟨x, rfl⟩
  | cons b t ih =>
    rw [List.getLast?_cons_cons]
    exact ih b

theorem dget_foldl_dinsert (ps acc : List (String × String)) (k : String) :
    dget (ps.foldl (fun m kv => dinsert m kv.1 kv.2) acc) k =
      match (ps.filter (fun p => p.1 = k)).getLast? with
      | some pr => some pr.2
      | none => dget acc k := by
  induction ps generalizing acc with
  | nil => rfl
  | cons kv rest ih =>
    rw [List.foldl_cons, ih, List.filter_cons]
    by_cases h : kv.1 = k
    · rw [show decide (kv.1 = k) = true by simp [h], if_pos rfl]
      cases hf : rest.filter (fun p => p.1 = k) with
      | nil => simp [dget_dinsert, h]
      | cons x xs =>
        rw [List.getLast?_cons_cons]
        obtain ⟨y, hy⟩ := cons_getLast?_isSome x xs
        rw [hy]
    · rw [show decide (kv.1 = k) = false by simp [h], if_neg (by simp)]
      cases hf : (rest.filter (fun p => p.1 = k)).getLast? with
      | none => simp [dget_dinsert, h]
      | some pr => rfl

/-- C8: in `separar_clausulas`, the returned clause map binds each marker
(with its trailing period stripped) to the normalized content of the *last*
match carrying that marker — earlier occurrences are overwritten and nothing
else is lost; no error is raised (the function is total).  Concretely, in
a text with the marker `1.` matched twice the map keeps the second content. -/
theorem C8_separar_clausulas_ultima_ocorrencia :
    (∀ (texto : String) (k : String),
      dget (separar_clausulas texto) k =
        (((paresClausulas texto).filter (fun p => p.1 = k)).getLast?).map Prod.snd) ∧
    paresClausulas "1. abc\n1. def\n" = [("1", "abc"), ("1", "def")] ∧
    dget (separar_clausulas "1. abc\n1. def\n") "1" = some "def" := by
  refine ⟨fun texto k => ?_, by decide, by decide⟩
  rw [separar_clausulas, dget_foldl_dinsert]
  cases hg : ((paresClausulas texto).filter (fun p => p.1 = k)).getLast? with
  | none => rfl
  | some pr => rfl

/-! ## Lemmas about the SequenceMatcher embedding: block bounds -/

theorem parBusca_parAcrescenta (cur : List (Nat × Nat)) (j k x : Nat) :
    parBusca (parAcrescenta cur j k) x = if x = j then k else parBusca cur x := by
  induction cur with
  | nil =>
    show parBusca [(j, k)] x = _
    show (if j = x then k else parBusca [] x) = _
    by_cases h : x = j
    · rw [if_pos h.symm, if_pos h]
    · rw [if_neg (fun he : j = x => h he.symm), if_neg h]
  | cons p rest ih =>
    obtain ⟨j1, k1⟩ := p
    have hdesdobra : parAcrescenta ((j1, k1) :: rest) j k =
        if j1 = j then (j, k) :: rest else (j1, k1) :: parAcrescenta rest j k := rfl
    by_cases h1 : j1 = j
    · subst h1
      rw [show parAcrescenta ((j1, k1) :: rest) j1 k = (j1, k) :: rest from by
        rw [hdesdobra, if_pos rfl]]
      show (if j1 = x then k else parBusca rest x) = _
      by_cases h : j1 = x
      · rw [if_pos h, if_pos h.symm]
      · rw [if_neg h, if_neg (fun he : x = j1 => h he.symm)]
        show parBusca rest x = if j1 = x then k1 else parBusca rest x
        rw [if_neg h]
    · rw [show parAcrescenta ((j1, k1) :: rest) j k = (j1, k1) :: parAcrescenta rest j k from by
        rw [hdesdobra, if_neg h1]]
      show (if j1 = x then k1 else parBusca (parAcrescenta rest j k) x) = _
      by_cases hx : j1 = x
      · rw [if_pos hx, if_neg (fun he : x = j => h1 (hx.trans he))]
        show k1 = if j1 = x then k1 else parBusca rest x
        rw [if_pos hx]
      · rw [if_neg hx, ih]
        by_cases hxj : x = j
        · rw [if_pos hxj, if_pos hxj]
        · rw [if_neg hxj, if_neg hxj]
          show parBusca rest x = if j1 = x then k1 else parBusca rest x
          rw [if_neg hx]


theorem passoK_bounds {alo blo bhi i j : Nat} {prev : List (Nat × Nat)}
    (hprev : LinhaB alo blo bhi i prev) (hjb : blo ≤ j) (hi : alo ≤ i) :
    passoK prev j + blo ≤ j + 1 ∧ passoK prev j + alo ≤ i + 1 ∧ 1 ≤ passoK prev j := by
  unfold passoK
  by_cases hj0 : j = 0
  · rw [if_pos hj0]
    omega
  · rw [if_neg hj0]
    by_cases hpb : 1 ≤ parBusca prev (j - 1)
    · obtain ⟨g1, g2, g3, g4⟩ := hprev (j - 1) hpb
      omega
    · omega

theorem atualizaMelhor_ok {alo blo bhi ahi i j : Nat} {best : Bloco} {k : Nat}
    (hbest : BlocoOk alo ahi blo bhi best)
    (hjb : blo ≤ j) (hjh : j < bhi) (hia : i < ahi) (halo : alo ≤ i)
    (hk1 : k + blo ≤ j + 1) (hk2 : k + alo ≤ i + 1) :
    BlocoOk alo ahi blo bhi (atualizaMelhor best i j k) := by
  unfold atualizaMelhor
  by_cases hb : best.k < k
  · rw [if_pos hb]
    refine ⟨?_, ?_, ?_, ?_⟩
    · show alo ≤ i + 1 - k
      omega
    · show i + 1 - k + k ≤ ahi
      omega
    · show blo ≤ j + 1 - k
      omega
    · show j + 1 - k + k ≤ bhi
      omega
  · rw [if_neg hb]
    exact hbest

theorem linhaJs_bounds {alo blo bhi ahi i : Nat} (hi : alo ≤ i) (hia : i < ahi) :
    ∀ (js : List Nat) (cur : List (Nat × Nat)) (best : Bloco)
      (prev : List (Nat × Nat)),
      LinhaB alo blo bhi i prev →
      LinhaB alo blo bhi (i + 1) cur →
      BlocoOk alo ahi blo bhi best →
      LinhaB alo blo bhi (i + 1) (linhaJs prev i blo bhi js cur best).1 ∧
        BlocoOk alo ahi blo bhi (linhaJs prev i blo bhi js cur best).2 := by
  intro js
  induction js with
  | nil => intro cur best prev _ hcur hbest; exact ⟨hcur, hbest⟩
  | cons j rest ih =>
    intro cur best prev hprev hcur hbest
    unfold linhaJs
    by_cases h1 : j < blo
    · rw [if_pos h1]
      exact ih cur best prev hprev hcur hbest
    · rw [if_neg h1]
      by_cases h2 : bhi ≤ j
      · rw [if_pos h2]
        exact ⟨hcur, hbest⟩
      · rw [if_neg h2]
        have hjb : blo ≤ j := Nat.le_of_not_lt h1
        have hjh : j < bhi := Nat.lt_of_not_le h2
        obtain ⟨hk1, hk2, hk3⟩ := passoK_bounds hprev hjb hi
        apply ih
        · exact hprev
        · intro x hx
          rw [parBusca_parAcrescenta] at hx ⊢
          by_cases hxj : x = j
          · rw [if_pos hxj] at hx ⊢
            subst hxj
            exact ⟨hjb, hjh, hk1, hk2⟩
          · rw [if_neg hxj] at hx ⊢
            exact hcur x hx
        · exact atualizaMelhor_ok hbest hjb hjh hia hi hk1 hk2

theorem lacoLinhas_bounds {a : List Char} {b2j : List (Char × List Nat)}
    {alo blo bhi ahi : Nat} :
    ∀ (m i : Nat) (prev : List (Nat × Nat)) (best : Bloco),
      alo ≤ i → i + m ≤ ahi →
      LinhaB alo blo bhi i prev →
      BlocoOk alo ahi blo bhi best →
      BlocoOk alo ahi blo bhi (lacoLinhas a b2j blo bhi i m prev best) := by
  intro m
  induction m with
  | zero => intro i prev best _ _ _ hbest; exact hbest
  | succ m ih =>
    intro i prev best hi him hprev hbest
    unfold lacoLinhas
    have hia : i < ahi := by omega
    have hvazia : LinhaB alo blo bhi (i + 1) ([] : List (Nat × Nat)) := by
      intro j hj
      simp [parBusca] at hj
    obtain ⟨hrow, hb2⟩ :=
      linhaJs_bounds hi hia (jsDe b2j (a.getD i ' ')) [] best prev hprev hvazia hbest
    exact ih (i + 1) _ _ (by omega) (by omega) hrow hb2

theorem estendeTras_ok {a b : List Char} {alo ahi blo bhi : Nat} :
    ∀ (fuel : Nat) (m : Bloco), BlocoOk alo ahi blo bhi m →
      BlocoOk alo ahi blo bhi (estendeTras a b alo blo fuel m) := by
  intro fuel
  induction fuel with
  | zero => intro m hm; exact hm
  | succ fuel ih =>
    intro m hm
    unfold estendeTras
    split
    · rename_i hg
      apply ih
      obtain ⟨h1, h2, h3, h4⟩ := hm
      refine ⟨?_, ?_, ?_, ?_⟩
      · show alo ≤ m.i - 1
        omega
      · show m.i - 1 + (m.k + 1) ≤ ahi
        omega
      · show blo ≤ m.j - 1
        omega
      · show m.j - 1 + (m.k + 1) ≤ bhi
        omega
    · exact hm

theorem estendeFrente_ok {a b : List Char} {ahi bhi i j : Nat} :
    ∀ (fuel k : Nat), i + k ≤ ahi → j + k ≤ bhi →
      i + estendeFrente a b ahi bhi i j fuel k ≤ ahi ∧
        j + estendeFrente a b ahi bhi i j fuel k ≤ bhi := by
  intro fuel
  induction fuel with
  | zero => intro k h1 h2; exact ⟨h1, h2⟩
  | succ fuel ih =>
    intro k h1 h2
    unfold estendeFrente
    split
    · rename_i hg
      exact ih (k + 1) (by omega) (by omega)
    · exact ⟨h1, h2⟩

theorem melhorEstendido_ok {a b : List Char} {b2j : List (Char × List Nat)}
    {alo ahi blo bhi : Nat} (halo : alo ≤ ahi) (hblo : blo ≤ bhi) :
    BlocoOk alo ahi blo bhi (melhorEstendido a b b2j alo ahi blo bhi) := by
  unfold melhorEstendido
  apply estendeTras_ok
  have h0 : BlocoOk alo ahi blo bhi ⟨alo, blo, 0⟩ :=
    ⟨Nat.le_refl _, by simpa using halo, Nat.le_refl _, by simpa using hblo⟩
  exact @lacoLinhas_bounds a b2j alo blo bhi ahi
    (ahi - alo) alo [] ⟨alo, blo, 0⟩ (Nat.le_refl _) (by omega)
    (fun j hj => by simp [parBusca] at hj) h0

theorem flm_ok {a b : List Char} {b2j : List (Char × List Nat)}
    {alo ahi blo bhi : Nat} (halo : alo ≤ ahi) (hblo : blo ≤ bhi) :
    BlocoOk alo ahi blo bhi (find_longest_match a b b2j alo ahi blo bhi) := by
  obtain ⟨g1, g2, g3, g4⟩ := @melhorEstendido_ok a b b2j alo ahi blo bhi halo hblo
  have h3 := @estendeFrente_ok a b ahi bhi _ _ ahi _ g2 g4
  exact ⟨g1, h3.1, g3, h3.2⟩

theorem somaBlocos_le {a b : List Char} {b2j : List (Char × List Nat)} :
    ∀ (fuel alo ahi blo bhi : Nat), alo ≤ ahi → blo ≤ bhi →
      somaBlocos a b b2j fuel alo ahi blo bhi ≤ ahi - alo ∧
        somaBlocos a b b2j fuel alo ahi blo bhi ≤ bhi - blo := by
  intro fuel
  induction fuel with
  | zero => intro alo ahi blo bhi _ _; exact ⟨Nat.zero_le _, Nat.zero_le _⟩
  | succ fuel ih =>
    intro alo ahi blo bhi halo hblo
    have hstep : somaBlocos a b b2j (fuel + 1) alo ahi blo bhi =
        somaBlocosCom a b b2j (somaBlocos a b b2j fuel) alo ahi blo bhi
          (find_longest_match a b b2j alo ahi blo bhi) := rfl
    rw [hstep]
    generalize hm : find_longest_match a b b2j alo ahi blo bhi = m
    obtain ⟨q1, q2, q3, q4⟩ := hm ▸ @flm_ok a b b2j alo ahi blo bhi halo hblo
    unfold somaBlocosCom
    by_cases hk : m.k = 0
    · rw [if_pos hk]
      exact ⟨Nat.zero_le _, Nat.zero_le _⟩
    · rw [if_neg hk]
      have hL : (if alo < m.i ∧ blo < m.j then somaBlocos a b b2j fuel alo m.i blo m.j else 0)
          ≤ m.i - alo ∧
          (if alo < m.i ∧ blo < m.j then somaBlocos a b b2j fuel alo m.i blo m.j else 0)
          ≤ m.j - blo := by
        split
        · exact ih alo m.i blo m.j q1 q3
        · exact ⟨Nat.zero_le _, Nat.zero_le _⟩
      have hR : (if m.i + m.k < ahi ∧ m.j + m.k < bhi then
            somaBlocos a b b2j fuel (m.i + m.k) ahi (m.j + m.k) bhi else 0)
          ≤ ahi - (m.i + m.k) ∧
          (if m.i + m.k < ahi ∧ m.j + m.k < bhi then
            somaBlocos a b b2j fuel (m.i + m.k) ahi (m.j + m.k) bhi else 0)
          ≤ bhi - (m.j + m.k) := by
        split
        · rename_i hg
          exact ih (m.i + m.k) ahi (m.j + m.k) bhi (by omega) (by omega)
        · exact ⟨Nat.zero_le _, Nat.zero_le _⟩
      exact ⟨by omega, by omega⟩


theorem ratioListas_bounds (a b : List Char) :
    0 ≤ ratioListas a b ∧ ratioListas a b ≤ 1 := by
  unfold ratioListas
  by_cases hT : a.length + b.length = 0
  · rw [if_pos hT]
    norm_num
  · rw [if_neg hT]
    obtain ⟨h1, h2⟩ := @somaBlocos_le a b (b2jDe b)
      (a.length + b.length + 1) 0 a.length 0 b.length (Nat.zero_le _) (Nat.zero_le _)
    have hpos : (0 : Rat) < (a.length : Rat) + (b.length : Rat) := by
      have : 1 ≤ a.length + b.length := by omega
      exact_mod_cast this
    constructor
    · apply div_nonneg _ (le_of_lt hpos)
      positivity
    · rw [div_le_one hpos]
      have hsum : 2 * somaBlocos a b (b2jDe b) (a.length + b.length + 1) 0 a.length 0 b.length
          ≤ a.length + b.length := by omega
      exact_mod_cast hsum



/-! ## Characterisation of the `b2j` map -/

theorem jsDe_b2jAcrescenta (m : List (Char × List Nat)) (c0 : Char) (idx : Nat) (c : Char) :
    jsDe (b2jAcrescenta m c0 idx) c =
      if c0 = c then jsDe m c ++ [idx] else jsDe m c := by
  induction m with
  | nil =>
    show jsDe [(c0, [idx])] c = _
    show (if c0 = c then [idx] else jsDe [] c) = _
    by_cases h : c0 = c
    · rw [if_pos h, if_pos h]
      rfl
    · rw [if_neg h, if_neg h]
  | cons p rest ih =>
    obtain ⟨c1, js⟩ := p
    have hdes : b2jAcrescenta ((c1, js) :: rest) c0 idx =
        if c1 = c0 then (c1, js ++ [idx]) :: rest
        else (c1, js) :: b2jAcrescenta rest c0 idx := rfl
    by_cases h1 : c1 = c0
    · rw [hdes, if_pos h1]
      show (if c1 = c then js ++ [idx] else jsDe rest c) = _
      by_cases h2 : c1 = c
      · rw [if_pos h2, if_pos (h1 ▸ h2 : c0 = c)]
        show js ++ [idx] = jsDe ((c1, js) :: rest) c ++ [idx]
        rw [show jsDe ((c1, js) :: rest) c = js from by
          show (if c1 = c then js else jsDe rest c) = js
          rw [if_pos h2]]
      · rw [if_neg h2, if_neg (fun he : c0 = c => h2 (h1.trans he))]
        show jsDe rest c = if c1 = c then js else jsDe rest c
        rw [if_neg h2]
    · rw [hdes, if_neg h1]
      show (if c1 = c then js else jsDe (b2jAcrescenta rest c0 idx) c) = _
      by_cases h2 : c1 = c
      · rw [if_pos h2, if_neg (fun he : c0 = c => h1 (h2.trans he.symm))]
        show js = if c1 = c then js else jsDe rest c
        rw [if_pos h2]
      · rw [if_neg h2, ih]
        by_cases h3 : c0 = c
        · rw [if_pos h3, if_pos h3]
          show jsDe rest c ++ [idx] = (if c1 = c then js else jsDe rest c) ++ [idx]
          rw [if_neg h2]
        · rw [if_neg h3, if_neg h3]
          show jsDe rest c = if c1 = c then js else jsDe rest c
          rw [if_neg h2]

theorem jsDe_constroiAux (l : List Char) :
    ∀ (i : Nat) (m : List (Char × List Nat)) (c : Char),
      jsDe (constroiB2jAux i m l) c = jsDe m c ++ posicoesDesde i l c := by
  induction l with
  | nil => intro i m c; simp [constroiB2jAux, posicoesDesde]
  | cons x r ih =>
    intro i m c
    show jsDe (constroiB2jAux (i + 1) (b2jAcrescenta m x i) r) c = _
    rw [ih (i + 1) _ c, jsDe_b2jAcrescenta]
    show _ = jsDe m c ++ ((if x = c then [i] else []) ++ posicoesDesde (i + 1) r c)
    by_cases h : x = c
    · rw [if_pos h, if_pos h]
      simp
    · rw [if_neg h, if_neg h]
      simp

theorem jsDe_constroiB2j (b : List Char) (c : Char) :
    jsDe (constroiB2j b) c = posicoesDesde 0 b c := by
  unfold constroiB2j
  rw [jsDe_constroiAux]
  rfl

theorem posicoesDesde_mem (l : List Char) :
    ∀ (i j : Nat) (c : Char),
      j ∈ posicoesDesde i l c ↔
        i ≤ j ∧ j - i < l.length ∧ l.getD (j - i) ' ' = c := by
  induction l with
  | nil =>
    intro i j c
    simp [posicoesDesde]
  | cons x r ih =>
    intro i j c
    show j ∈ (if x = c then [i] else []) ++ posicoesDesde (i + 1) r c ↔ _
    rw [List.mem_append, ih (i + 1) j c]
    constructor
    · rintro (h | ⟨h1, h2, h3⟩)
      · have hji : j = i ∧ x = c := by
          by_cases hx : x = c
          · rw [if_pos hx] at h
            simp at h
            exact ⟨h, hx⟩
          · rw [if_neg hx] at h
            simp at h
        obtain ⟨hj, hx⟩ := hji
        subst hj
        refine ⟨Nat.le_refl _, by simp, ?_⟩
        simpa using hx
      · refine ⟨by omega, by simp; omega, ?_⟩
        have : j - i = (j - (i + 1)) + 1 := by omega
        rw [this]
        simpa using h3
    · rintro ⟨h1, h2, h3⟩
      by_cases hj : j = i
      · subst hj
        left
        have hx : x = c := by simpa using h3
        rw [if_pos hx]
        simp
      · right
        have hij : i + 1 ≤ j := by omega
        refine ⟨hij, by simp at h2; omega, ?_⟩
        have : j - i = (j - (i + 1)) + 1 := by omega
        rw [this] at h3
        simpa using h3



theorem chaves_b2jAcrescenta {m : List (Char × List Nat)} {c0 : Char} {idx : Nat}
    {p : Char × List Nat} (h : p ∈ b2jAcrescenta m c0 idx) :
    p.1 ∈ m.map Prod.fst ∨ p.1 = c0 := by
  induction m with
  | nil =>
    simp only [b2jAcrescenta, List.mem_singleton] at h
    right
    rw [h]
  | cons q rest ih =>
    obtain ⟨c1, js⟩ := q
    rw [show b2jAcrescenta ((c1, js) :: rest) c0 idx =
        if c1 = c0 then (c1, js ++ [idx]) :: rest
        else (c1, js) :: b2jAcrescenta rest c0 idx from rfl] at h
    by_cases h1 : c1 = c0
    · rw [if_pos h1] at h
      rcases List.mem_cons.mp h with h2 | h2
      · right
        rw [h2, h1]
      · left
        simp only [List.map_cons, List.mem_cons]
        right
        exact List.mem_map_of_mem Prod.fst h2
    · rw [if_neg h1] at h
      rcases List.mem_cons.mp h with h2 | h2
      · left
        rw [h2]
        simp
      · rcases ih h2 with h3 | h3
        · left
          simp only [List.map_cons, List.mem_cons]
          right
          exact h3
        · right
          exact h3

theorem unicas_b2jAcrescenta {m : List (Char × List Nat)} {c0 : Char} {idx : Nat}
    (h : m.Pairwise (fun p q => p.1 ≠ q.1)) :
    (b2jAcrescenta m c0 idx).Pairwise (fun p q => p.1 ≠ q.1) := by
  induction m with
  | nil => simp [b2jAcrescenta]
  | cons q rest ih =>
    obtain ⟨c1, js⟩ := q
    rw [List.pairwise_cons] at h
    rw [show b2jAcrescenta ((c1, js) :: rest) c0 idx =
        if c1 = c0 then (c1, js ++ [idx]) :: rest
        else (c1, js) :: b2jAcrescenta rest c0 idx from rfl]
    by_cases h1 : c1 = c0
    · rw [if_pos h1]
      rw [List.pairwise_cons]
      exact ⟨h.1, h.2⟩
    · rw [if_neg h1]
      rw [List.pairwise_cons]
      refine ⟨?_, ih h.2⟩
      intro p hp
      rcases chaves_b2jAcrescenta hp with h2 | h2
      · obtain ⟨q, hq, hq2⟩ := List.mem_map.mp h2
        have := h.1 q hq
        rw [hq2] at this
        exact this
      · rw [h2]
        exact h1
  done

theorem unicas_constroiAux (l : List Char) :
    ∀ (i : Nat) (m : List (Char × List Nat)),
      m.Pairwise (fun p q => p.1 ≠ q.1) →
      (constroiB2jAux i m l).Pairwise (fun p q => p.1 ≠ q.1) := by
  induction l with
  | nil => intro i m h; exact h
  | cons x r ih =>
    intro i m h
    exact ih (i + 1) _ (unicas_b2jAcrescenta h)

theorem jsDe_ausente {m : List (Char × List Nat)} {c : Char}
    (h : ∀ p ∈ m, p.1 ≠ c) : jsDe m c = [] := by
  induction m with
  | nil => rfl
  | cons q rest ih =>
    obtain ⟨c1, js⟩ := q
    show (if c1 = c then js else jsDe rest c) = []
    rw [if_neg (h (c1, js) (by simp))]
    exact ih (fun p hp => h p (List.mem_cons_of_mem _ hp))

theorem jsDe_filter {m : List (Char × List Nat)} {q : Char × List Nat → Bool} {c : Char}
    (hu : m.Pairwise (fun p r => p.1 ≠ r.1)) :
    jsDe (m.filter q) c = jsDe m c ∨ jsDe (m.filter q) c = [] := by
  induction m with
  | nil => left; rfl
  | cons p rest ih =>
    obtain ⟨c1, js⟩ := p
    rw [List.pairwise_cons] at hu
    rw [List.filter_cons]
    by_cases hq : q (c1, js) = true
    · rw [if_pos hq]
      simp only [jsDe]
      by_cases h1 : c1 = c
      · rw [if_pos h1, if_pos h1]
        left
        rfl
      · rw [if_neg h1, if_neg h1]
        exact ih hu.2
    · rw [if_neg hq]
      by_cases h1 : c1 = c
      · right
        subst h1
        exact jsDe_ausente (fun p hp => (hu.1 p (List.mem_of_mem_filter hp)).symm)
      · simp only [jsDe]
        rw [if_neg h1]
        exact ih hu.2

/-- The entry of `b2jDe b` for `c` is either the full ascending list of the
positions of `c` in `b` or it is empty (the autojunk purge removes whole
entries). -/
theorem jsDe_b2jDe (b : List Char) (c : Char) :
    jsDe (b2jDe b) c = posicoesDesde 0 b c ∨ jsDe (b2jDe b) c = [] := by
  unfold b2jDe purgaPopulares
  by_cases h : 200 ≤ b.length
  · rw [if_pos h]
    rcases jsDe_filter (q := fun kv => decide (kv.2.length ≤ b.length / 100 + 1))
      (unicas_constroiAux b 0 [] (by simp)) (c := c) with h2 | h2
    · left
      rw [show constroiB2j b = constroiB2jAux 0 [] b from rfl, h2, ← jsDe_constroiB2j]
      rfl
    · right
      rw [show constroiB2j b = constroiB2jAux 0 [] b from rfl]
      exact h2
  · rw [if_neg h]
    left
    exact jsDe_constroiB2j b c

/-- Soundness: a listed position is a position of its character. -/
theorem jsDe_b2jDe_sound {b : List Char} {c : Char} {j : Nat}
    (h : j ∈ jsDe (b2jDe b) c) : j < b.length ∧ b.getD j ' ' = c := by
  rcases jsDe_b2jDe b c with h2 | h2
  · rw [h2] at h
    obtain ⟨g1, g2, g3⟩ := (posicoesDesde_mem b 0 j c).mp h
    simp only [Nat.sub_zero] at g2 g3
    exact ⟨g2, g3⟩
  · rw [h2] at h
    simp at h

/-- Purging is per character: if one position of `c` is listed, every
position of `c` is. -/
theorem jsDe_b2jDe_completo {b : List Char} {c : Char} {j1 j2 : Nat}
    (h : j1 ∈ jsDe (b2jDe b) c) (h2 : j2 < b.length) (h3 : b.getD j2 ' ' = c) :
    j2 ∈ jsDe (b2jDe b) c := by
  rcases jsDe_b2jDe b c with h4 | h4
  · rw [h4]
    exact (posicoesDesde_mem b 0 j2 c).mpr ⟨Nat.zero_le _, by simpa using h2, by simpa using h3⟩
  · rw [h4] at h
    simp at h



/-! ## Content carried by the matcher: matched blocks match equal text -/


theorem linhaJs_content {a b : List Char} {i : Nat} :
    ∀ (js : List Nat) (blo bhi : Nat) (cur : List (Nat × Nat)) (best : Bloco)
      (prev : List (Nat × Nat)),
      (∀ j ∈ js, b.getD j ' ' = a.getD i ' ') →
      (∀ j, 1 ≤ parBusca prev j →
        parBusca prev j ≤ j + 1 ∧ parBusca prev j ≤ i ∧
        ∀ t < parBusca prev j, a.getD (i - 1 - t) ' ' = b.getD (j - t) ' ') →
      LinhaC a b i cur →
      BlocoCont a b best →
      LinhaC a b i (linhaJs prev i blo bhi js cur best).1 ∧
        BlocoCont a b (linhaJs prev i blo bhi js cur best).2 := by
  intro js
  induction js with
  | nil => intro blo bhi cur best prev _ _ hcur hbest; exact ⟨hcur, hbest⟩
  | cons j rest ih =>
    intro blo bhi cur best prev hjs hprev hcur hbest
    unfold linhaJs
    by_cases h1 : j < blo
    · rw [if_pos h1]
      exact ih blo bhi cur best prev (fun x hx => hjs x (List.mem_cons_of_mem _ hx))
        hprev hcur hbest
    · rw [if_neg h1]
      by_cases h2 : bhi ≤ j
      · rw [if_pos h2]
        exact ⟨hcur, hbest⟩
      · rw [if_neg h2]
        have hkent : passoK prev j ≤ j + 1 ∧ passoK prev j ≤ i + 1 ∧
            ∀ t < passoK prev j, a.getD (i - t) ' ' = b.getD (j - t) ' ' := by
          unfold passoK
          by_cases hj0 : j = 0
          · rw [if_pos hj0]
            refine ⟨by omega, by omega, ?_⟩
            intro t ht
            have ht0 : t = 0 := by omega
            subst ht0
            simp only [Nat.sub_zero]
            exact (hjs j (by simp)).symm
          · rw [if_neg hj0]
            by_cases hpb : 1 ≤ parBusca prev (j - 1)
            · obtain ⟨g1, g2, g3⟩ := hprev (j - 1) hpb
              refine ⟨by omega, by omega, ?_⟩
              intro t ht
              match t with
              | 0 =>
                simp only [Nat.sub_zero]
                exact (hjs j (by simp)).symm
              | t + 1 =>
                have hlt : t < parBusca prev (j - 1) := by omega
                have := g3 t hlt
                rw [show i - (t + 1) = i - 1 - t by omega,
                  show j - (t + 1) = j - 1 - t by omega]
                exact this
            · have hz : parBusca prev (j - 1) = 0 := by omega
              rw [hz]
              refine ⟨by omega, by omega, ?_⟩
              intro t ht
              have ht0 : t = 0 := by omega
              subst ht0
              simp only [Nat.sub_zero]
              exact (hjs j (by simp)).symm
        apply ih
        · exact fun x hx => hjs x (List.mem_cons_of_mem _ hx)
        · exact hprev
        · intro x hx
          rw [parBusca_parAcrescenta] at hx ⊢
          by_cases hxj : x = j
          · rw [if_pos hxj] at hx ⊢
            subst hxj
            exact hkent
          · rw [if_neg hxj] at hx ⊢
            exact hcur x hx
        · unfold atualizaMelhor
          by_cases hb : best.k < passoK prev j
          · rw [if_pos hb]
            intro t ht
            show a.getD (i + 1 - passoK prev j + t) ' ' = b.getD (j + 1 - passoK prev j + t) ' '
            have hs := hkent.2.2 (passoK prev j - 1 - t) (by
              show passoK prev j - 1 - t < passoK prev j
              unfold passoK
              omega)
            rw [show i - (passoK prev j - 1 - t) = i + 1 - passoK prev j + t from by
              have := hkent.2.1
              have ht2 : t < passoK prev j := ht
              omega,
              show j - (passoK prev j - 1 - t) = j + 1 - passoK prev j + t from by
              have := hkent.1
              have ht2 : t < passoK prev j := ht
              omega] at hs
            exact hs
          · rw [if_neg hb]
            exact hbest

theorem lacoLinhas_content {a b : List Char} {b2j : List (Char × List Nat)}
    {blo bhi : Nat}
    (hsound : ∀ (c : Char) (j : Nat), j ∈ jsDe b2j c → b.getD j ' ' = c) :
    ∀ (m i : Nat) (prev : List (Nat × Nat)) (best : Bloco),
      (∀ j, 1 ≤ parBusca prev j →
        parBusca prev j ≤ j + 1 ∧ parBusca prev j ≤ i ∧
        ∀ t < parBusca prev j, a.getD (i - 1 - t) ' ' = b.getD (j - t) ' ') →
      BlocoCont a b best →
      BlocoCont a b (lacoLinhas a b2j blo bhi i m prev best) := by
  intro m
  induction m with
  | zero => intro i prev best _ hbest; exact hbest
  | succ m ih =>
    intro i prev best hprev hbest
    unfold lacoLinhas
    obtain ⟨hrow, hb2⟩ := linhaJs_content (jsDe b2j (a.getD i ' ')) blo bhi [] best prev
      (fun j hj => hsound _ j hj) hprev
      (fun j hj => by simp [parBusca] at hj) hbest
    apply ih (i + 1) _ _ ?_ hb2
    intro j hj
    obtain ⟨g1, g2, g3⟩ := hrow j hj
    refine ⟨g1, g2, ?_⟩
    intro t ht
    rw [show i + 1 - 1 - t = i - t from by omega]
    exact g3 t ht

theorem estendeTras_content {a b : List Char} {alo blo : Nat} :
    ∀ (fuel : Nat) (m : Bloco), BlocoCont a b m →
      BlocoCont a b (estendeTras a b alo blo fuel m) := by
  intro fuel
  induction fuel with
  | zero => intro m hm; exact hm
  | succ fuel ih =>
    intro m hm
    unfold estendeTras
    split
    · rename_i hg
      apply ih
      intro t ht
      show a.getD (m.i - 1 + t) ' ' = b.getD (m.j - 1 + t) ' '
      match t with
      | 0 =>
        simpa using hg.2.2
      | t + 1 =>
        have hlt : t < m.k := by
          show t < m.k
          have : t + 1 < m.k + 1 := ht
          omega
        have := hm t hlt
        rw [show m.i - 1 + (t + 1) = m.i + t from by
            have := hg.1
            omega,
          show m.j - 1 + (t + 1) = m.j + t from by
            have := hg.2.1
            omega]
        exact this
    · exact hm

theorem estendeFrente_content {a b : List Char} {ahi bhi i j : Nat} :
    ∀ (fuel k : Nat),
      (∀ t < k, a.getD (i + t) ' ' = b.getD (j + t) ' ') →
      ∀ t < estendeFrente a b ahi bhi i j fuel k,
        a.getD (i + t) ' ' = b.getD (j + t) ' ' := by
  intro fuel
  induction fuel with
  | zero => intro k hk; exact hk
  | succ fuel ih =>
    intro k hk
    unfold estendeFrente
    split
    · rename_i hg
      apply ih
      intro t ht
      by_cases htk : t < k
      · exact hk t htk
      · have ht2 : t = k := by omega
        subst ht2
        exact hg.2.2
    · exact hk

theorem flm_content {a b : List Char} {alo ahi blo bhi : Nat} :
    BlocoCont a b (find_longest_match a b (b2jDe b) alo ahi blo bhi) := by
  unfold find_longest_match
  intro t ht
  apply estendeFrente_content ahi _ ?_ t ht
  have h1 : BlocoCont a b (lacoLinhas a (b2jDe b) blo bhi alo (ahi - alo) [] ⟨alo, blo, 0⟩) := by
    apply lacoLinhas_content (fun c j hj => (jsDe_b2jDe_sound hj).2)
    · intro j hj
      simp [parBusca] at hj
    · intro t2 ht2
      simp at ht2
  have h2 := @estendeTras_content a b alo blo
    (lacoLinhas a (b2jDe b) blo bhi alo (ahi - alo) [] ⟨alo, blo, 0⟩).i _ h1
  unfold melhorEstendido
  exact h2



/-! ## Slices -/

theorem fatia_vazia {l : List Char} {lo hi : Nat} (h : hi ≤ lo) : fatia l lo hi = [] := by
  unfold fatia
  apply List.drop_eq_nil_of_le
  exact le_trans (List.length_take_le hi l) h

theorem fatia_eq_map {l : List Char} {lo hi : Nat} (h1 : lo ≤ hi) (h2 : hi ≤ l.length) :
    fatia l lo hi = (List.range (hi - lo)).map (fun t => l.getD (lo + t) ' ') := by
  apply List.ext_getElem
  · simp [fatia, List.length_take]
    omega
  · intro n hn1 hn2
    have hlen : (fatia l lo hi).length = hi - lo := by
      simp [fatia, List.length_take]
      omega
    have hn : n < hi - lo := by rwa [hlen] at hn1
    have hb : lo + n < l.length := by omega
    rw [List.getElem_map, List.getElem_range]
    unfold fatia
    rw [List.getElem_drop, List.getElem_take]
    rw [List.getD_eq_getElem l ' ' hb]

theorem fatia_junta {l : List Char} {lo mid hi : Nat}
    (h1 : lo ≤ mid) (h2 : mid ≤ hi) (h3 : hi ≤ l.length) :
    fatia l lo hi = fatia l lo mid ++ fatia l mid hi := by
  rw [fatia_eq_map (by omega) h3, fatia_eq_map h1 (by omega), fatia_eq_map h2 h3]
  rw [show hi - lo = (mid - lo) + (hi - mid) from by omega, List.range_add, List.map_append,
    List.map_map]
  congr 1
  apply List.map_congr_left
  intro t _
  show l.getD (lo + (mid - lo + t)) ' ' = l.getD (mid + t) ' '
  rw [show lo + (mid - lo + t) = mid + t from by omega]

theorem fatia_toda (l : List Char) : fatia l 0 l.length = l := by
  unfold fatia
  rw [List.take_length, List.drop_zero]

/-! ## If the matched total fills both ranges, the ranges hold equal text -/

theorem somaBlocos_fatia {a b : List Char} :
    ∀ (fuel alo ahi blo bhi : Nat), alo ≤ ahi → ahi ≤ a.length → blo ≤ bhi → bhi ≤ b.length →
      somaBlocos a b (b2jDe b) fuel alo ahi blo bhi = ahi - alo →
      somaBlocos a b (b2jDe b) fuel alo ahi blo bhi = bhi - blo →
      fatia a alo ahi = fatia b blo bhi := by
  intro fuel
  induction fuel with
  | zero =>
    intro alo ahi blo bhi h1 h2 h3 h4 hA hB
    rw [fatia_vazia (by simp [somaBlocos] at hA; omega),
      fatia_vazia (by simp [somaBlocos] at hB; omega)]
  | succ fuel ih =>
    intro alo ahi blo bhi h1 h2 h3 h4 hA hB
    rw [show somaBlocos a b (b2jDe b) (fuel + 1) alo ahi blo bhi =
        somaBlocosCom a b (b2jDe b) (somaBlocos a b (b2jDe b) fuel) alo ahi blo bhi
          (find_longest_match a b (b2jDe b) alo ahi blo bhi) from rfl] at hA hB
    have hcont := @flm_content a b alo ahi blo bhi
    have hok := @flm_ok a b (b2jDe b) alo ahi blo bhi h1 h3
    set m := find_longest_match a b (b2jDe b) alo ahi blo bhi with hm
    obtain ⟨q1, q2, q3, q4⟩ := hok
    unfold somaBlocosCom at hA hB
    by_cases hk : m.k = 0
    · rw [if_pos hk] at hA hB
      rw [fatia_vazia (by omega), fatia_vazia (by omega)]
    · rw [if_neg hk] at hA hB
      have hkpos : 1 ≤ m.k := by omega
      have hLb : (if alo < m.i ∧ blo < m.j then
            somaBlocos a b (b2jDe b) fuel alo m.i blo m.j else 0) ≤ m.i - alo ∧
          (if alo < m.i ∧ blo < m.j then
            somaBlocos a b (b2jDe b) fuel alo m.i blo m.j else 0) ≤ m.j - blo := by
        split
        · exact somaBlocos_le fuel alo m.i blo m.j q1 q3
        · exact ⟨Nat.zero_le _, Nat.zero_le _⟩
      have hRb : (if m.i + m.k < ahi ∧ m.j + m.k < bhi then
            somaBlocos a b (b2jDe b) fuel (m.i + m.k) ahi (m.j + m.k) bhi else 0)
            ≤ ahi - (m.i + m.k) ∧
          (if m.i + m.k < ahi ∧ m.j + m.k < bhi then
            somaBlocos a b (b2jDe b) fuel (m.i + m.k) ahi (m.j + m.k) bhi else 0)
            ≤ bhi - (m.j + m.k) := by
        split
        · exact somaBlocos_le fuel (m.i + m.k) ahi (m.j + m.k) bhi (by omega) (by omega)
        · exact ⟨Nat.zero_le _, Nat.zero_le _⟩
      have hmeio : fatia a m.i (m.i + m.k) = fatia b m.j (m.j + m.k) := by
        rw [fatia_eq_map (by omega) (by omega), fatia_eq_map (by omega) (by omega)]
        rw [show m.i + m.k - m.i = m.k from by omega, show m.j + m.k - m.j = m.k from by omega]
        apply List.map_congr_left
        intro t ht
        rw [List.mem_range] at ht
        exact hcont t ht
      have hesq : fatia a alo m.i = fatia b blo m.j := by
        by_cases hg : alo < m.i ∧ blo < m.j
        · rw [if_pos hg] at hA hB hLb
          exact ih alo m.i blo m.j q1 (by omega) q3 (by omega) (by omega) (by omega)
        · rw [if_neg hg] at hA hB
          rw [fatia_vazia (by omega), fatia_vazia (by omega)]
      have hdir : fatia a (m.i + m.k) ahi = fatia b (m.j + m.k) bhi := by
        by_cases hg : m.i + m.k < ahi ∧ m.j + m.k < bhi
        · rw [if_pos hg] at hA hB hRb
          exact ih (m.i + m.k) ahi (m.j + m.k) bhi (by omega) h2 (by omega) h4
            (by omega) (by omega)
        · rw [if_neg hg] at hA hB
          rw [fatia_vazia (by omega), fatia_vazia (by omega)]
      have hsplitA : fatia a alo ahi =
          fatia a alo m.i ++ (fatia a m.i (m.i + m.k) ++ fatia a (m.i + m.k) ahi) := by
        rw [← @fatia_junta a m.i (m.i + m.k) ahi (by omega) (by omega) h2]
        exact fatia_junta q1 (by omega) h2
      have hsplitB : fatia b blo bhi =
          fatia b blo m.j ++ (fatia b m.j (m.j + m.k) ++ fatia b (m.j + m.k) bhi) := by
        rw [← @fatia_junta b m.j (m.j + m.k) bhi (by omega) (by omega) h4]
        exact fatia_junta q3 (by omega) h4
      rw [hsplitA, hsplitB, hesq, hmeio, hdir]



/-- If the ratio is `1`, the two lists are equal. -/
theorem ratioListas_um_implica {a b : List Char} (h : ratioListas a b = 1) : a = b := by
  unfold ratioListas at h
  by_cases hT : a.length + b.length = 0
  · have ha : a = [] := List.length_eq_zero.mp (by omega)
    have hb : b = [] := List.length_eq_zero.mp (by omega)
    rw [ha, hb]
  · rw [if_neg hT] at h
    have hpos : ((a.length : Rat) + (b.length : Rat)) ≠ 0 := by
      have : (0 : Rat) < (a.length : Rat) + (b.length : Rat) := by
        have : 1 ≤ a.length + b.length := by omega
        exact_mod_cast this
      exact ne_of_gt this
    rw [div_eq_one_iff_eq hpos] at h
    have hnat : 2 * somaBlocos a b (b2jDe b) (a.length + b.length + 1) 0 a.length 0 b.length
        = a.length + b.length := by exact_mod_cast h
    obtain ⟨hle1, hle2⟩ := @somaBlocos_le a b (b2jDe b)
      (a.length + b.length + 1) 0 a.length 0 b.length (Nat.zero_le _) (Nat.zero_le _)
    have heqa : somaBlocos a b (b2jDe b) (a.length + b.length + 1) 0 a.length 0 b.length
        = a.length - 0 := by omega
    have heqb : somaBlocos a b (b2jDe b) (a.length + b.length + 1) 0 a.length 0 b.length
        = b.length - 0 := by omega
    have := somaBlocos_fatia (a.length + b.length + 1) 0 a.length 0 b.length
      (Nat.zero_le _) (Nat.le_refl _) (Nat.zero_le _) (Nat.le_refl _) heqa heqb
    rwa [fatia_toda, fatia_toda] at this



/-! ## The identity case: `ratio(l, l) = 1` even under the autojunk purge -/

theorem NP_of_mem {b : List Char} {c : Char} {j : Nat}
    (h : j ∈ jsDe (b2jDe b) c) : NaoPurgado (b2jDe b) b j := by
  obtain ⟨h1, h2⟩ := jsDe_b2jDe_sound h
  unfold NaoPurgado
  rw [h2]
  exact h

theorem corrida_le (b2j : List (Char × List Nat)) (l : List Char) :
    ∀ x, corrida b2j l x ≤ x + 1 := by
  intro x
  induction x with
  | zero =>
    unfold corrida
    split <;> omega
  | succ x ih =>
    unfold corrida
    split
    · omega
    · omega

theorem corrida_succ_le (b2j : List (Char × List Nat)) (l : List Char) (x : Nat) :
    corrida b2j l (x + 1) ≤ corrida b2j l x + 1 := by
  show (if (x + 1) ∈ jsDe b2j (l.getD (x + 1) ' ') then corrida b2j l x + 1 else 0) ≤ _
  split <;> omega

theorem corrida_zero_of_not {b2j : List (Char × List Nat)} {l : List Char} {x : Nat}
    (h : ¬NaoPurgado b2j l x) : corrida b2j l x = 0 := by
  match x with
  | 0 =>
    show (if 0 ∈ jsDe b2j (l.getD 0 ' ') then 1 else 0) = 0
    rw [if_neg h]
  | x + 1 =>
    show (if (x + 1) ∈ jsDe b2j (l.getD (x + 1) ' ') then corrida b2j l x + 1 else 0) = 0
    rw [if_neg h]

theorem corrida_ge (b2j : List (Char × List Nat)) (l : List Char) :
    ∀ (k x : Nat), k ≤ x + 1 → (∀ t < k, NaoPurgado b2j l (x - t)) →
      k ≤ corrida b2j l x := by
  intro k
  induction k with
  | zero => intro x _ _; exact Nat.zero_le _
  | succ k ih =>
    intro x hx hnp
    have hnpx : NaoPurgado b2j l x := by
      have := hnp 0 (by omega)
      simpa using this
    match x with
    | 0 =>
      have hk0 : k = 0 := by omega
      subst hk0
      show 0 + 1 ≤ (if 0 ∈ jsDe b2j (l.getD 0 ' ') then 1 else 0)
      rw [if_pos hnpx]
    | x + 1 =>
      have hrec := ih x (by omega) (fun t ht => by
        have := hnp (t + 1) (by omega)
        rwa [show x + 1 - (t + 1) = x - t from by omega] at this)
      show k + 1 ≤ (if (x + 1) ∈ jsDe b2j (l.getD (x + 1) ' ') then corrida b2j l x + 1 else 0)
      rw [if_pos hnpx]
      omega

theorem pairwise_posicoesDesde (l : List Char) :
    ∀ (i : Nat) (c : Char), (posicoesDesde i l c).Pairwise (· < ·) := by
  induction l with
  | nil => intro i c; simp [posicoesDesde]
  | cons x r ih =>
    intro i c
    show ((if x = c then [i] else []) ++ posicoesDesde (i + 1) r c).Pairwise (· < ·)
    rw [List.pairwise_append]
    refine ⟨?_, ih (i + 1) c, ?_⟩
    · split <;> simp
    · intro a ha b hb
      have hbl : i + 1 ≤ b := ((posicoesDesde_mem r (i + 1) b c).mp hb).1
      have hal : a = i := by
        split at ha
        · simpa using ha
        · simp at ha
      omega

theorem jsDe_b2jDe_pairwise (b : List Char) (c : Char) :
    (jsDe (b2jDe b) c).Pairwise (· < ·) := by
  rcases jsDe_b2jDe b c with h | h
  · rw [h]
    exact pairwise_posicoesDesde b 0 c
  · rw [h]
    simp





/-- Processing one row of the main loop on identical sequences keeps the
best block on the diagonal, and the diagonal entry of the produced row
dominates the unpurged run ending at the row index. -/
theorem linhaId (l : List Char) (i : Nat) (hi : i < l.length) :
    ∀ (js : List Nat) (cur : List (Nat × Nat)) (best : Bloco) (prev : List (Nat × Nat)),
      (∀ j ∈ js, j ∈ jsDe (b2jDe l) (l.getD i ' ')) →
      js.Pairwise (· < ·) →
      PrevId l i prev →
      LinhaIdEnt l i cur →
      best.i = best.j →
      (∀ r < i, corrida (b2jDe l) l r ≤ best.k) →
      ((i ∈ js) ∨ (corrida (b2jDe l) l i ≤ best.k ∧
        (NaoPurgado (b2jDe l) l i →
          corrida (b2jDe l) l i ≤ parBusca cur i))) →
      (LinhaIdEnt l i (linhaJs prev i 0 l.length js cur best).1 ∧
        (NaoPurgado (b2jDe l) l i →
          corrida (b2jDe l) l i ≤ parBusca (linhaJs prev i 0 l.length js cur best).1 i)) ∧
      ((linhaJs prev i 0 l.length js cur best).2.i =
          (linhaJs prev i 0 l.length js cur best).2.j ∧
        ∀ r < i + 1, corrida (b2jDe l) l r ≤ (linhaJs prev i 0 l.length js cur best).2.k) := by
  intro js
  induction js with
  | nil =>
    intro cur best prev hjs hsort hprev hcur hdiag hbeta hstate
    rcases hstate with hL | ⟨hc1, hc2⟩
    · simp at hL
    · refine ⟨⟨hcur, hc2⟩, hdiag, ?_⟩
      intro r hr
      by_cases hri : r < i
      · exact hbeta r hri
      · have : r = i := by omega
        subst this
        exact hc1
  | cons j rest ih =>
    intro cur best prev hjs hsort hprev hcur hdiag hbeta hstate
    have hjmem : j ∈ jsDe (b2jDe l) (l.getD i ' ') := hjs j (by simp)
    obtain ⟨hjn, hjc⟩ := jsDe_b2jDe_sound hjmem
    unfold linhaJs
    rw [if_neg (Nat.not_lt_zero j), if_neg (by omega : ¬l.length ≤ j)]
    have hkent : passoK prev j ≤ j + 1 ∧ passoK prev j ≤ i + 1 ∧
        ∀ t < passoK prev j, NaoPurgado (b2jDe l) l (j - t) ∧
          l.getD (i - t) ' ' = l.getD (j - t) ' ' := by
      unfold passoK
      have hcab : NaoPurgado (b2jDe l) l j ∧ l.getD (i - 0) ' ' = l.getD (j - 0) ' ' := by
        refine ⟨NP_of_mem hjmem, ?_⟩
        simp only [Nat.sub_zero]
        exact hjc.symm
      by_cases hj0 : j = 0
      · rw [if_pos hj0]
        refine ⟨by omega, by omega, ?_⟩
        intro t ht
        have ht0 : t = 0 := by omega
        subst ht0
        exact hcab
      · rw [if_neg hj0]
        by_cases hpb : 1 ≤ parBusca prev (j - 1)
        · obtain ⟨g1, g2, g3⟩ := hprev.1 (j - 1) hpb
          refine ⟨by omega, by omega, ?_⟩
          intro t ht
          match t with
          | 0 => exact hcab
          | t + 1 =>
            have hlt : t < parBusca prev (j - 1) := by omega
            obtain ⟨e1, e2⟩ := g3 t hlt
            rw [show j - (t + 1) = j - 1 - t from by omega,
              show i - (t + 1) = i - 1 - t from by omega]
            exact ⟨e1, e2⟩
        · have hz : parBusca prev (j - 1) = 0 := by omega
          rw [hz]
          refine ⟨by omega, by omega, ?_⟩
          intro t ht
          have ht0 : t = 0 := by omega
          subst ht0
          exact hcab
    have hcurstep : LinhaIdEnt l i (parAcrescenta cur j (passoK prev j)) := by
      intro x hx
      rw [parBusca_parAcrescenta] at hx ⊢
      by_cases hxj : x = j
      · rw [if_pos hxj] at hx ⊢
        subst hxj
        exact hkent
      · rw [if_neg hxj] at hx ⊢
        exact hcur x hx
    rcases Nat.lt_trichotomy j i with hji | hji | hji
    · -- below the diagonal: the entry cannot beat the best block
      have hkc : passoK prev j ≤ corrida (b2jDe l) l j :=
        corrida_ge (b2jDe l) l (passoK prev j) j hkent.1
          (fun t ht => (hkent.2.2 t ht).1)
      have hkb : passoK prev j ≤ best.k := le_trans hkc (hbeta j hji)
      have hnoupd : atualizaMelhor best i j (passoK prev j) = best := by
        unfold atualizaMelhor
        rw [if_neg (by omega)]
      rw [hnoupd]
      apply ih _ _ prev (fun x hx => hjs x (List.mem_cons_of_mem _ hx))
        (List.Pairwise.sublist (List.sublist_cons_self j rest) hsort)
        hprev hcurstep hdiag hbeta
      rcases hstate with hL | ⟨hc1, hc2⟩
      · left
        rcases List.mem_cons.mp hL with h2 | h2
        · omega
        · exact h2
      · right
        refine ⟨hc1, ?_⟩
        intro hnp
        rw [parBusca_parAcrescenta, if_neg (by omega : ¬i = j)]
        exact hc2 hnp
    · -- the diagonal: the entry dominates the run and the update (if any)
      -- stays diagonal
      subst hji
      have hkd : corrida (b2jDe l) l j ≤ passoK prev j := by
        unfold passoK
        by_cases hj0 : j = 0
        · subst hj0
          rw [if_pos rfl]
          have := corrida_le (b2jDe l) l 0
          omega
        · rw [if_neg hj0]
          have hstep : corrida (b2jDe l) l j ≤ corrida (b2jDe l) l (j - 1) + 1 := by
            have := corrida_succ_le (b2jDe l) l (j - 1)
            rwa [show j - 1 + 1 = j from by omega] at this
          by_cases hnp1 : NaoPurgado (b2jDe l) l (j - 1)
          · have := hprev.2 (by omega) hnp1
            omega
          · have := corrida_zero_of_not hnp1
            omega
      have hdiag2 : (atualizaMelhor best j j (passoK prev j)).i =
          (atualizaMelhor best j j (passoK prev j)).j := by
        unfold atualizaMelhor
        split
        · rfl
        · exact hdiag
      have hbk2 : best.k ≤ (atualizaMelhor best j j (passoK prev j)).k ∧
          passoK prev j ≤ (atualizaMelhor best j j (passoK prev j)).k := by
        unfold atualizaMelhor
        split
        · rename_i hb
          refine ⟨?_, ?_⟩
          · show best.k ≤ passoK prev j
            omega
          · show passoK prev j ≤ passoK prev j
            exact Nat.le_refl _
        · rename_i hb
          refine ⟨Nat.le_refl _, ?_⟩
          omega
      apply ih _ _ prev (fun x hx => hjs x (List.mem_cons_of_mem _ hx))
        (List.Pairwise.sublist (List.sublist_cons_self j rest) hsort)
        hprev hcurstep hdiag2
        (fun r hr => le_trans (hbeta r hr) hbk2.1)
      right
      refine ⟨le_trans hkd hbk2.2, ?_⟩
      intro _
      rw [parBusca_parAcrescenta, if_pos rfl]
      exact hkd
    · -- above the diagonal: the diagonal has already been processed, so the
      -- best block already dominates the run ending at the row index
      have hinotin : i ∉ (j :: rest) := by
        intro hmem
        rcases List.mem_cons.mp hmem with h2 | h2
        · omega
        · rw [List.pairwise_cons] at hsort
          have := hsort.1 i h2
          omega
      rcases hstate with hL | ⟨hc1, hc2⟩
      · exact absurd hL hinotin
      have hknp : ∀ t < passoK prev j, NaoPurgado (b2jDe l) l (i - t) := by
        intro t ht
        obtain ⟨e1, e2⟩ := hkent.2.2 t ht
        have hjt : (j - t) ∈ jsDe (b2jDe l) (l.getD (j - t) ' ') := e1
        have hitn : i - t < l.length := by omega
        have := jsDe_b2jDe_completo hjt hitn e2
        unfold NaoPurgado
        rw [e2]
        exact this
      have hkc : passoK prev j ≤ corrida (b2jDe l) l i :=
        corrida_ge (b2jDe l) l (passoK prev j) i hkent.2.1 hknp
      have hnoupd : atualizaMelhor best i j (passoK prev j) = best := by
        unfold atualizaMelhor
        rw [if_neg (by omega)]
      rw [hnoupd]
      apply ih _ _ prev (fun x hx => hjs x (List.mem_cons_of_mem _ hx))
        (List.Pairwise.sublist (List.sublist_cons_self j rest) hsort)
        hprev hcurstep hdiag hbeta
      right
      refine ⟨hc1, ?_⟩
      intro hnp
      rw [parBusca_parAcrescenta, if_neg (by omega : ¬i = j)]
      exact hc2 hnp



theorem lacoId (l : List Char) :
    ∀ (m i : Nat) (prev : List (Nat × Nat)) (best : Bloco),
      i + m ≤ l.length →
      PrevId l i prev →
      best.i = best.j →
      (∀ r < i, corrida (b2jDe l) l r ≤ best.k) →
      (lacoLinhas l (b2jDe l) 0 l.length i m prev best).i =
        (lacoLinhas l (b2jDe l) 0 l.length i m prev best).j := by
  intro m
  induction m with
  | zero => intro i prev best _ _ hdiag _; exact hdiag
  | succ m ih =>
    intro i prev best him hprev hdiag hbeta
    unfold lacoLinhas
    have hi : i < l.length := by omega
    have hstate : (i ∈ jsDe (b2jDe l) (l.getD i ' ')) ∨
        (corrida (b2jDe l) l i ≤ best.k ∧
          (NaoPurgado (b2jDe l) l i →
            corrida (b2jDe l) l i ≤ parBusca ([] : List (Nat × Nat)) i)) := by
      by_cases hnp : NaoPurgado (b2jDe l) l i
      · left
        exact hnp
      · right
        rw [corrida_zero_of_not hnp]
        exact ⟨Nat.zero_le _, fun h => absurd h hnp⟩
    obtain ⟨⟨hrow, hrdiag⟩, hbdiag, hbbeta⟩ :=
      linhaId l i hi (jsDe (b2jDe l) (l.getD i ' ')) [] best prev
        (fun j hj => hj) (jsDe_b2jDe_pairwise l (l.getD i ' '))
        hprev (fun j hj => by simp [parBusca] at hj) hdiag hbeta hstate
    apply ih (i + 1) _ _ (by omega) ?_ hbdiag hbbeta
    constructor
    · intro j hj
      obtain ⟨g1, g2, g3⟩ := hrow j hj
      refine ⟨g1, g2, ?_⟩
      intro t ht
      obtain ⟨e1, e2⟩ := g3 t ht
      refine ⟨e1, ?_⟩
      rwa [show i + 1 - 1 - t = i - t from by omega]
    · intro _ hnp
      rw [show i + 1 - 1 = i from by omega]
      exact hrdiag (by rwa [show i + 1 - 1 = i from by omega] at hnp)

theorem estendeTras_id (l : List Char) :
    ∀ (fuel d k : Nat), d ≤ fuel →
      estendeTras l l 0 0 fuel ⟨d, d, k⟩ = ⟨0, 0, k + d⟩ := by
  intro fuel
  induction fuel with
  | zero =>
    intro d k hd
    have hd0 : d = 0 := by omega
    subst hd0
    rfl
  | succ fuel ih =>
    intro d k hd
    unfold estendeTras
    by_cases h0 : 0 < d
    · rw [if_pos (by exact ⟨h0, h0, rfl⟩)]
      show estendeTras l l 0 0 fuel ⟨d - 1, d - 1, k + 1⟩ = ⟨0, 0, k + d⟩
      rw [ih (d - 1) (k + 1) (by omega)]
      congr 1
      omega
    · have hd0 : d = 0 := by omega
      subst hd0
      rw [if_neg (by
        intro hcontra
        have h := hcontra.1
        simp at h)]
      simp

theorem estendeFrente_id (l : List Char) (n : Nat) (hn : n = l.length) :
    ∀ (fuel k : Nat), n ≤ k + fuel → k ≤ n →
      estendeFrente l l n n 0 0 fuel k = n := by
  intro fuel
  induction fuel with
  | zero =>
    intro k h1 h2
    show k = n
    omega
  | succ fuel ih =>
    intro k h1 h2
    unfold estendeFrente
    by_cases hk : k < n
    · rw [if_pos (by exact ⟨by omega, by omega, rfl⟩)]
      exact ih (k + 1) (by omega) (by omega)
    · have hk2 : k = n := by omega
      rw [if_neg (by
        intro hcontra
        have := hcontra.1
        omega)]
      exact hk2

/-- On identical sequences `find_longest_match` over the whole range returns
the full diagonal block, autojunk or not. -/
theorem flm_id (l : List Char) :
    find_longest_match l l (b2jDe l) 0 l.length 0 l.length = ⟨0, 0, l.length⟩ := by
  have hlaco := lacoId l (l.length - 0) 0 [] ⟨0, 0, 0⟩ (by omega)
    ⟨fun j hj => by simp [parBusca] at hj, fun h1 _ => absurd h1 (by omega)⟩
    rfl (fun r hr => by omega)
  have hok := @melhorEstendido_ok l l (b2jDe l)
    0 l.length 0 l.length
    (Nat.zero_le _) (Nat.zero_le _)
  unfold find_longest_match
  unfold melhorEstendido at hok ⊢
  generalize hm0 : lacoLinhas l (b2jDe l) 0 l.length 0 (l.length - 0) [] ⟨0, 0, 0⟩ = m0
  rw [hm0] at hlaco hok
  obtain ⟨a, b, c⟩ := m0
  have hdiag : a = b := hlaco
  subst hdiag
  dsimp only at hok ⊢
  have htras : estendeTras l l 0 0 a ⟨a, a, c⟩ = ⟨0, 0, c + a⟩ :=
    estendeTras_id l a a c (Nat.le_refl _)
  rw [htras] at hok ⊢
  obtain ⟨o1, o2, o3, o4⟩ := hok
  dsimp only at o2 ⊢
  have hfrente : estendeFrente l l l.length l.length 0 0 l.length (c + a) = l.length := by
    apply estendeFrente_id l l.length rfl
    · omega
    · omega
  rw [hfrente]

/-- `ratio(l, l) = 1` for every list. -/
theorem ratioListas_id (l : List Char) : ratioListas l l = 1 := by
  unfold ratioListas
  by_cases hT : l.length + l.length = 0
  · rw [if_pos hT]
  · rw [if_neg hT]
    have hsoma : somaBlocos l l (b2jDe l) (l.length + l.length + 1) 0 l.length 0 l.length
        = l.length := by
      rw [show somaBlocos l l (b2jDe l) (l.length + l.length + 1) 0 l.length 0 l.length =
        somaBlocosCom l l (b2jDe l) (somaBlocos l l (b2jDe l) (l.length + l.length))
          0 l.length 0 l.length
          (find_longest_match l l (b2jDe l) 0 l.length 0 l.length) from rfl]
      rw [flm_id l]
      unfold somaBlocosCom
      dsimp only
      have hn : l.length ≠ 0 := by omega
      rw [if_neg hn, if_neg (by omega : ¬((0 : Nat) < 0 ∧ (0 : Nat) < 0)),
        if_neg (by omega : ¬(0 + l.length < l.length ∧ 0 + l.length < l.length))]
      omega
    rw [hsoma]
    have hne : ((l.length : Rat) + (l.length : Rat)) ≠ 0 := by
      have : (0 : Rat) < (l.length : Rat) + (l.length : Rat) := by
        have : 1 ≤ l.length + l.length := by omega
        exact_mod_cast this
      exact ne_of_gt this
    rw [div_eq_one_iff_eq hne]
    push_cast
    ring



/-- C3 counterexample: `calcular_similaridade` is *not* symmetric.
`SequenceMatcher` prefers blocks earliest in its first argument, so
`calcular_similaridade "tide" "diet" = 1/4` while
`calcular_similaridade "diet" "tide" = 1/2`. -/
theorem C3_contraexemplo_simetria :
    calcular_similaridade "tide" "diet" ≠ calcular_similaridade "diet" "tide" := by
  have hn1 : normLista "tide".data = "tide".data := by decide
  have hn2 : normLista "diet".data = "diet".data := by decide
  have hl1 : ("tide".data).length = 4 := rfl
  have hl2 : ("diet".data).length = 4 := rfl
  have hs1 : somaBlocos "tide".data "diet".data (b2jDe "diet".data) 9 0 4 0 4 = 1 := by decide
  have hs2 : somaBlocos "diet".data "tide".data (b2jDe "tide".data) 9 0 4 0 4 = 2 := by decide
  unfold calcular_similaridade
  rw [hn1, hn2]
  unfold ratioListas
  rw [hl1, hl2]
  norm_num
  rw [hs1, hs2]
  norm_num

/-- C3 (amended): for all strings `a` and `b`, `calcular_similaridade a b`
lies in `[0, 1]` and equals `1` exactly when the normalized forms of `a` and
`b` are identical; but it is *not* symmetric in general (see the
counterexample `"tide"` / `"diet"`), because `difflib.SequenceMatcher`
treats its two arguments asymmetrically. -/
theorem C3_similaridade_intervalo_e_um_sse :
    ∀ (a b : String),
      0 ≤ calcular_similaridade a b ∧ calcular_similaridade a b ≤ 1 ∧
      (calcular_similaridade a b = 1 ↔ normalizar_texto a = normalizar_texto b) := by
  intro a b
  obtain ⟨h1, h2⟩ := ratioListas_bounds (normLista a.data) (normLista b.data)
  refine ⟨h1, h2, ?_, ?_⟩
  · intro h
    have hlis := ratioListas_um_implica h
    show (⟨normLista a.data⟩ : String) = ⟨normLista b.data⟩
    rw [hlis]
  · intro h
    have hdata : normLista a.data = normLista b.data := by
      have := congrArg String.data h
      simpa using this
    show ratioListas (normLista a.data) (normLista b.data) = 1
    rw [hdata]
    exact ratioListas_id _

end ValidadorCRM

namespace ValidadorCRM

theorem risco_ausentes_alto (alteradas ausentes extras : List String)
    (base contrato : List (String × String)) (h : ausentes ≠ []) :
    _determinar_nivel_risco alteradas ausentes extras base contrato = "alto" := by
  have h1 : ausentes.isEmpty = false := by
    cases ausentes with
    | nil => exact absurd rfl h
    | cons a t => rfl
  unfold _determinar_nivel_risco
  rw [if_pos h1]

/-- C6: the result of `validar_clausulas` has `valido = true` exactly when both
the missing-clause list and the extra-clause list are empty; altered clauses
alone never make it false. -/
theorem C6_valido_sse_sem_ausentes_nem_extras :
    ∀ (modelo texto_contrato : String) (diretorio_base : Option String)
      (diretorioModulo : String) (fs : List (String × String)) (r : ResultadoClausulas),
      validar_clausulas modelo texto_contrato diretorio_base diretorioModulo fs = .ok r →
      (r.valido = true ↔ (r.clausulas_ausentes = [] ∧ r.clausulas_extras = [])) := by
  intro modelo texto dir dirMod fs r h
  unfold validar_clausulas at h
  cases hc : _carregar_modelo_base modelo dir dirMod fs with
  | error e => rw [hc] at h; exact absurd h (by simp)
  | ok texto_base =>
    rw [hc] at h
    dsimp only at h
    injection h with h
    subst h
    dsimp only
    simp [List.isEmpty_iff]

theorem C6_witness :
    ((⟨false, [], ["1"], ["2"], "alto"⟩ : ResultadoClausulas).valido = true ↔
      ((⟨false, [], ["1"], ["2"], "alto"⟩ : ResultadoClausulas).clausulas_ausentes = [] ∧
       (⟨false, [], ["1"], ["2"], "alto"⟩ : ResultadoClausulas).clausulas_extras = [])) :=
  C6_valido_sse_sem_ausentes_nem_extras "novo" "2. bla x\n" (some "d") ""
    [("d/modelo_novo_base.txt", "1. foo y\n")] ⟨false, [], ["1"], ["2"], "alto"⟩ (by rfl)

end ValidadorCRM

namespace ValidadorCRM

/-- C7: `validar_clausulas` fails with `ValueError` (`modeloNaoReconhecido`)
exactly when the template identifier is not a key of `ARQUIVOS_BASE`, and with
`FileNotFoundError` (`arquivoNaoEncontrado`) exactly when the template is
recognized but its base file is absent at the configured path; the two error
kinds are never conflated. -/
theorem C7_erros_distintos :
    ∀ (modelo texto_contrato : String) (diretorio_base : Option String)
      (diretorioModulo : String) (fs : List (String × String)),
      ((∃ m, validar_clausulas modelo texto_contrato diretorio_base diretorioModulo fs =
          .error (.modeloNaoReconhecido m)) ↔ dget ARQUIVOS_BASE modelo = none) ∧
      ((∃ c n d, validar_clausulas modelo texto_contrato diretorio_base diretorioModulo fs =
          .error (.arquivoNaoEncontrado c n d)) ↔
        (∃ nome, dget ARQUIVOS_BASE modelo = some nome ∧
          dget fs (diretorioEfetivo diretorio_base diretorioModulo ++ "/" ++ nome) = none)) := by
  intro modelo texto dir dirMod fs
  cases hm : dget ARQUIVOS_BASE modelo with
  | none =>
    have hval : validar_clausulas modelo texto dir dirMod fs =
        .error (.modeloNaoReconhecido modelo) := by
      unfold validar_clausulas _carregar_modelo_base
      rw [hm]
    refine ⟨⟨fun _ => rfl, fun _ => ⟨modelo, hval⟩⟩, ?_, ?_⟩
    · rintro ⟨c, n, d, hcd⟩
      rw [hval] at hcd
      exact absurd hcd (by simp)
    · rintro ⟨nome, hnome, -⟩
      exact absurd hnome (by simp)
  | some nome =>
    cases hf : dget fs (diretorioEfetivo dir dirMod ++ "/" ++ nome) with
    | none =>
      have hval : validar_clausulas modelo texto dir dirMod fs =
          .error (.arquivoNaoEncontrado (diretorioEfetivo dir dirMod ++ "/" ++ nome)
            nome (diretorioEfetivo dir dirMod)) := by
        unfold validar_clausulas _carregar_modelo_base
        rw [hm]
        dsimp only
        rw [hf]
      refine ⟨⟨?_, ?_⟩, ⟨fun _ => ⟨nome, rfl, hf⟩, fun _ => ⟨_, _, _, hval⟩⟩⟩
      · rintro ⟨m, hmm⟩
        rw [hval] at hmm
        exact absurd hmm (by simp)
      · intro hcontra
        exact absurd hcontra (by simp)
    | some conteudo =>
      have hval : ∃ r, validar_clausulas modelo texto dir dirMod fs = .ok r := by
        unfold validar_clausulas _carregar_modelo_base
        rw [hm]
        dsimp only
        rw [hf]
        exact ⟨_, rfl⟩
      obtain ⟨r, hr⟩ := hval
      refine ⟨⟨?_, ?_⟩, ⟨?_, ?_⟩⟩
      · rintro ⟨m, hmm⟩
        rw [hr] at hmm
        exact absurd hmm (by simp)
      · intro hcontra
        exact absurd hcontra (by simp)
      · rintro ⟨c, n, d, hcd⟩
        rw [hr] at hcd
        exact absurd hcd (by simp)
      · rintro ⟨nome2, hn2, hfs2⟩
        injection hn2 with hn2
        subst hn2
        rw [hf] at hfs2
        exact absurd hfs2 (by simp)

theorem C7_witness :
    (∃ m, validar_clausulas "x" "" none "" [] = .error (.modeloNaoReconhecido m)) ∧
    (∃ c n d, validar_clausulas "novo" "" none "m" [] =
        .error (.arquivoNaoEncontrado c n d)) :=
  ⟨(C7_erros_distintos "x" "" none "" []).1.mpr rfl,
   (C7_erros_distintos "novo" "" none "m" []).2.mpr ⟨"modelo_novo_base.txt", rfl, rfl⟩⟩

end ValidadorCRM

namespace ValidadorCRM

/-- C4: the risk level of `_determinar_nivel_risco` follows the ordered rule
list — any missing clause → `"alto"`; else any extra clause → `"alto"`; else
any altered clause whose combined base+contract content has a critical keyword
→ `"alto"`; else any altered clause → `"medio"`; else `"baixo"` — and in
`validar_clausulas` a missing clause forces `nivel_risco = "alto"` regardless
of keyword matches. -/
theorem C4_nivel_risco_precedencia :
    (∀ (alteradas ausentes extras : List String)
       (base contrato : List (String × String)),
      (ausentes ≠ [] →
        _determinar_nivel_risco alteradas ausentes extras base contrato = "alto") ∧
      (ausentes = [] → extras ≠ [] →
        _determinar_nivel_risco alteradas ausentes extras base contrato = "alto") ∧
      (ausentes = [] → extras = [] →
        (∃ m ∈ alteradas, temPalavraCritica m base contrato = true) →
        _determinar_nivel_risco alteradas ausentes extras base contrato = "alto") ∧
      (ausentes = [] → extras = [] → alteradas ≠ [] →
        (∀ m ∈ alteradas, temPalavraCritica m base contrato = false) →
        _determinar_nivel_risco alteradas ausentes extras base contrato = "medio") ∧
      (ausentes = [] → extras = [] → alteradas = [] →
        _determinar_nivel_risco alteradas ausentes extras base contrato = "baixo")) ∧
    (∀ (modelo texto_contrato : String) (diretorio_base : Option String)
       (diretorioModulo : String) (fs : List (String × String)) (r : ResultadoClausulas),
      validar_clausulas modelo texto_contrato diretorio_base diretorioModulo fs = .ok r →
      r.clausulas_ausentes ≠ [] → r.nivel_risco = "alto") := by
  constructor
  · intro alteradas ausentes extras base contrato
    refine ⟨risco_ausentes_alto alteradas ausentes extras base contrato, ?_, ?_, ?_, ?_⟩
    · intro hA hE
      subst hA
      have h2 : extras.isEmpty = false := by
        cases extras with
        | nil => exact absurd rfl hE
        | cons a t => rfl
      unfold _determinar_nivel_risco
      rw [if_neg (by simp), if_pos h2]
    · intro hA hE hcrit
      subst hA; subst hE
      have h3 : alteradas.any
          (fun marcador => temPalavraCritica marcador base contrato) = true := by
        rw [List.any_eq_true]
        obtain ⟨m, hmem, hm⟩ := hcrit
        exact ⟨m, hmem, hm⟩
      unfold _determinar_nivel_risco
      rw [if_neg (by simp), if_neg (by simp), if_pos h3]
    · intro hA hE hAlt hnenhuma
      subst hA; subst hE
      have h3 : alteradas.any
          (fun marcador => temPalavraCritica marcador base contrato) = false := by
        rw [List.any_eq_false]
        intro m hmem
        simp [hnenhuma m hmem]
      have h4 : alteradas.isEmpty = false := by
        cases alteradas with
        | nil => exact absurd rfl hAlt
        | cons a t => rfl
      unfold _determinar_nivel_risco
      rw [if_neg (by simp), if_neg (by simp), if_neg (by simp [h3]), if_pos h4]
    · intro hA hE hAlt
      subst hA; subst hE; subst hAlt
      unfold _determinar_nivel_risco
      rw [if_neg (by simp), if_neg (by simp), if_neg (by simp), if_neg (by simp)]
  · intro modelo texto dir dirMod fs r h hA
    unfold validar_clausulas at h
    cases hc : _carregar_modelo_base modelo dir dirMod fs with
    | error e => rw [hc] at h; exact absurd h (by simp)
    | ok texto_base =>
      rw [hc] at h
      dsimp only at h
      injection h with h
      subst h
      exact risco_ausentes_alto _ _ _ _ _ hA

theorem C4_witness :
    _determinar_nivel_risco ["3"] ["4"] ["5"] [] [] = "alto" ∧
    _determinar_nivel_risco ["3"] [] ["5"] [] [] = "alto" ∧
    _determinar_nivel_risco ["3"] [] [] [("3", "multa de 30%")] [] = "alto" ∧
    _determinar_nivel_risco ["3"] [] [] [("3", "texto brando")] [] = "medio" ∧
    _determinar_nivel_risco [] [] [] [] [] = "baixo" ∧
    (⟨false, [], ["1"], [], "alto"⟩ : ResultadoClausulas).nivel_risco = "alto" :=
  ⟨(C4_nivel_risco_precedencia.1 ["3"] ["4"] ["5"] [] []).1 (by decide),
   (C4_nivel_risco_precedencia.1 ["3"] [] ["5"] [] []).2.1 rfl (by decide),
   (C4_nivel_risco_precedencia.1 ["3"] [] [] [("3", "multa de 30%")] []).2.2.1 rfl rfl
     ⟨"3", by decide, by decide⟩,
   (C4_nivel_risco_precedencia.1 ["3"] [] [] [("3", "texto brando")] []).2.2.2.1 rfl rfl
     (by decide) (by decide),
   (C4_nivel_risco_precedencia.1 [] [] [] [] []).2.2.2.2 rfl rfl rfl,
   C4_nivel_risco_precedencia.2 "antigo_v13" "" none "e"
     [("e/modelo_antigo_base.txt", "1. multa z\n")] ⟨false, [], ["1"], [], "alto"⟩
     (by rfl) (by decide)⟩

end ValidadorCRM

namespace ValidadorCRM

theorem filtra_bloco_fora (dados : List (String × Valor)) (campo c : String)
    (hc : (c == campo) = false) :
    ((if _e_vazio ((dget dados c).getD .vnone) then [ErroCampo.ausenteOuVazio c]
      else if _contem_placeholder ((dget dados c).getD .vnone) then
        [ErroCampo.contemPlaceholder c ((dget dados c).getD .vnone)]
      else []).filter (citaCampo campo)) = [] := by
  cases h1 : _e_vazio ((dget dados c).getD .vnone) with
  | true => simp [h1, citaCampo, hc]
  | false =>
    cases h2 : _contem_placeholder ((dget dados c).getD .vnone) with
    | true => simp [h1, h2, citaCampo, hc]
    | false => simp [h1, h2]

theorem filtra_presenca_fora (dados : List (String × Valor)) (campo : String) :
    ∀ campos : List String, campo ∉ campos →
      (_validar_presenca dados campos).filter (citaCampo campo) = [] := by
  intro campos
  induction campos with
  | nil => intro _; rfl
  | cons c resto ih =>
    intro hnot
    have hc : (c == campo) = false := by
      simp only [beq_eq_false_iff_ne, ne_eq]
      intro h
      exact hnot (h ▸ List.mem_cons_self c resto)
    have hr := ih (fun h => hnot (List.mem_cons_of_mem c h))
    unfold _validar_presenca
    rw [List.filter_append, hr, List.append_nil]
    exact filtra_bloco_fora dados campo c hc

theorem filtra_presenca_um (dados : List (String × Valor)) (campo : String) :
    ∀ campos : List String, campo ∈ campos → campos.Nodup →
      _e_vazio ((dget dados campo).getD .vnone) = true →
      (_validar_presenca dados campos).filter (citaCampo campo) =
        [ErroCampo.ausenteOuVazio campo] := by
  intro campos
  induction campos with
  | nil => intro h; exact absurd h (List.not_mem_nil campo)
  | cons c resto ih =>
    intro hmem hnd hvazio
    by_cases hceq : c = campo
    · subst hceq
      have hnot : c ∉ resto := (List.nodup_cons.mp hnd).1
      unfold _validar_presenca
      rw [List.filter_append, filtra_presenca_fora dados c resto hnot, List.append_nil,
        hvazio]
      simp [citaCampo]
    · have hmem2 : campo ∈ resto := by
        cases List.mem_cons.mp hmem with
        | inl h => exact absurd h.symm hceq
        | inr h => exact h
      have hcb : (c == campo) = false := by simp [hceq]
      unfold _validar_presenca
      rw [List.filter_append, ih hmem2 (List.nodup_cons.mp hnd).2 hvazio,
        filtra_bloco_fora dados campo c hcb]
      rfl

theorem passoNumerico_snd (dados : List (String × Valor))
    (st : List (String × Option Rat) × List ErroCampo) (c : String) :
    (passoNumerico dados st c).2 = st.2 ∨
    (∃ e2, (passoNumerico dados st c).2 = st.2 ++ [e2] ∧
      (∀ campo, citaCampo campo e2 = (c == campo)) ∧
      (dget dados c).getD .vnone ≠ .vnone) := by
  unfold passoNumerico
  cases hv : (dget dados c).getD Valor.vnone with
  | vnone => exact Or.inl rfl
  | vstr s =>
    exact Or.inr ⟨.deveriaSerNumerico c (.vstr s), rfl, fun campo => rfl, by simp⟩
  | vint n =>
    dsimp only [comoNumero]
    by_cases hq : (n : Rat) < 0
    · rw [if_pos hq]
      exact Or.inr ⟨.naoPodeSerNegativo c (.vint n), rfl, fun campo => rfl, by simp⟩
    · rw [if_neg hq]
      exact Or.inl rfl
  | vfloat q =>
    dsimp only [comoNumero]
    by_cases hq : q < 0
    · rw [if_pos hq]
      exact Or.inr ⟨.naoPodeSerNegativo c (.vfloat q), rfl, fun campo => rfl, by simp⟩
    · rw [if_neg hq]
      exact Or.inl rfl
  | vbool b =>
    dsimp only [comoNumero]
    by_cases hq : (if b then (1 : Rat) else 0) < 0
    · rw [if_pos hq]
      exact Or.inr ⟨.naoPodeSerNegativo c (.vbool b), rfl, fun campo => rfl, by simp⟩
    · rw [if_neg hq]
      exact Or.inl rfl

theorem fold_numerico_mantem (dados : List (String × Valor)) (e : ErroCampo) :
    ∀ (cs : List String) (st : List (String × Option Rat) × List ErroCampo),
      e ∈ st.2 → e ∈ (cs.foldl (passoNumerico dados) st).2 := by
  intro cs
  induction cs with
  | nil => intro st h; exact h
  | cons c resto ih =>
    intro st h
    refine ih _ ?_
    rcases passoNumerico_snd dados st c with heq | ⟨e2, heq, -, -⟩
    · rw [heq]; exact h
    · rw [heq]; exact List.mem_append_left _ h

theorem fold_numerico_filter (dados : List (String × Valor)) (campo : String)
    (hv : (dget dados campo).getD .vnone = .vnone) :
    ∀ (cs : List String) (st : List (String × Option Rat) × List ErroCampo),
      ((cs.foldl (passoNumerico dados) st).2).filter (citaCampo campo) =
        st.2.filter (citaCampo campo) := by
  intro cs
  induction cs with
  | nil => intro st; rfl
  | cons c resto ih =>
    intro st
    show ((resto.foldl (passoNumerico dados) (passoNumerico dados st c)).2).filter _ = _
    rw [ih (passoNumerico dados st c)]
    rcases passoNumerico_snd dados st c with heq | ⟨e2, heq, hcita, hne⟩
    · rw [heq]
    · rw [heq, List.filter_append]
      have hcc : (c == campo) = false := by
        cases hcb : c == campo with
        | false => rfl
        | true =>
          have : c = campo := by simpa using hcb
          subst this
          exact absurd hv hne
      have he2 : citaCampo campo e2 = false := (hcita campo).trans hcc
      simp [he2]

theorem fold_numerico_mem (dados : List (String × Valor)) (campo : String) (s : String)
    (hv : (dget dados campo).getD .vnone = .vstr s) :
    ∀ (cs : List String) (st : List (String × Option Rat) × List ErroCampo),
      campo ∈ cs →
      ErroCampo.deveriaSerNumerico campo (.vstr s) ∈ (cs.foldl (passoNumerico dados) st).2 := by
  intro cs
  induction cs with
  | nil => intro st h; exact absurd h (List.not_mem_nil _)
  | cons c resto ih =>
    intro st hmem
    show _ ∈ (resto.foldl (passoNumerico dados) (passoNumerico dados st c)).2
    by_cases hceq : c = campo
    · subst hceq
      have hstep : (passoNumerico dados st c).2 =
          st.2 ++ [ErroCampo.deveriaSerNumerico c (.vstr s)] := by
        unfold passoNumerico
        rw [hv]
        rfl
      apply fold_numerico_mantem
      rw [hstep]
      exact List.mem_append_right _ (List.mem_singleton.mpr rfl)
    · have hmem2 : campo ∈ resto := by
        cases List.mem_cons.mp hmem with
        | inl h => exact absurd h.symm hceq
        | inr h => exact h
      exact ih _ hmem2

theorem filtra_numericos (dados : List (String × Valor)) (campo : String) :
    ((_validar_numericos dados).1).filter (citaCampo campo) =
      ((CAMPOS_NUMERICOS.foldl (passoNumerico dados) ([], [])).2).filter (citaCampo campo) := by
  unfold _validar_numericos
  dsimp only
  split
  · split
    · rw [List.filter_append]
      simp [citaCampo]
    · rfl
  · rfl

theorem numericos_mem (dados : List (String × Valor)) (e : ErroCampo)
    (h : e ∈ (CAMPOS_NUMERICOS.foldl (passoNumerico dados) ([], [])).2) :
    e ∈ (_validar_numericos dados).1 := by
  unfold _validar_numericos
  dsimp only
  split
  · split
    · exact List.mem_append_left _ h
    · exact h
  · exact h

end ValidadorCRM

namespace ValidadorCRM

/-- C2 counterexample: a required *numeric* field holding the empty string gets
TWO errors citing it — the presence error and, from `_validar_numericos`, a
numeric-type error — so the presence failure does not suppress further checks
on that field.  (A field that is `None`/missing does get exactly one.) -/
theorem C2_contraexemplo_dois_erros :
    ∃ r, validar_campos_contrato
        [("modelo", .plano (.vstr "novo")), ("dados", .dicionario dadosAlunosVazio)] = .ok r ∧
      (r.erros_criticos.filter (citaCampo "alunos_totais")).length = 2 ∧
      r.erros_criticos = [ErroCampo.ausenteOuVazio "alunos_totais",
        ErroCampo.deveriaSerNumerico "alunos_totais" (.vstr "")] :=
  ⟨⟨false,
    [ErroCampo.ausenteOuVazio "alunos_totais",
     ErroCampo.deveriaSerNumerico "alunos_totais" (.vstr "")], []⟩, rfl, rfl, rfl⟩

/-- C2 (amended): in `validar_campos_contrato`, every required field of the
template whose value is missing, `None`, empty or whitespace-only yields the
critical presence error, the placeholder check on it is skipped, and the whole
run is invalid; if the value is `None`/missing, that presence error is the only
error citing the field — but if the value is an empty string and the field is
numeric, `_validar_numericos` additionally emits a numeric-type error citing
the same field. -/
theorem C2_campo_vazio_corrigido :
    ∀ (modelo : String) (campos : List String) (dados : List (String × Valor)) (campo : String),
      dget CAMPOS_OBRIGATORIOS modelo = some campos →
      campo ∈ campos → campos.Nodup →
      _e_vazio ((dget dados campo).getD .vnone) = true →
      ∃ r, validar_campos_contrato
          [("modelo", .plano (.vstr modelo)), ("dados", .dicionario dados)] = .ok r ∧
        r.valido = false ∧
        r.erros_criticos.filter (citaCampo campo) =
          ErroCampo.ausenteOuVazio campo ::
            ((_validar_numericos dados).1.filter (citaCampo campo)) ∧
        ((dget dados campo).getD .vnone = .vnone →
          r.erros_criticos.filter (citaCampo campo) = [ErroCampo.ausenteOuVazio campo]) ∧
        (∀ s, (dget dados campo).getD .vnone = .vstr s → campo ∈ CAMPOS_NUMERICOS →
          ErroCampo.deveriaSerNumerico campo (.vstr s) ∈ r.erros_criticos) := by
  intro modelo campos dados campo hmod hmem hnd hvazio
  have hne : modelo ≠ "" := by
    intro h
    subst h
    rw [show dget CAMPOS_OBRIGATORIOS "" = none from rfl] at hmod
    exact Option.noConfusion hmod
  have h1 : (dget [("modelo", ValorEntrada.plano (.vstr modelo)),
      ("dados", ValorEntrada.dicionario dados)] "modelo").getD (.plano .vnone) =
      .plano (.vstr modelo) := rfl
  have h2 : (dget [("modelo", ValorEntrada.plano (.vstr modelo)),
      ("dados", ValorEntrada.dicionario dados)] "dados").getD (.plano .vnone) =
      .dicionario dados := rfl
  have hval : validar_campos_contrato
      [("modelo", .plano (.vstr modelo)), ("dados", .dicionario dados)] =
      .ok ⟨(_validar_presenca dados campos ++ (_validar_numericos dados).1).isEmpty,
           _validar_presenca dados campos ++ (_validar_numericos dados).1,
           (_validar_numericos dados).2⟩ := by
    unfold validar_campos_contrato
    rw [h1]
    dsimp only
    rw [if_neg hne, h2]
    dsimp only
    rw [hmod]
  have hfiltro : (_validar_presenca dados campos ++
      (_validar_numericos dados).1).filter (citaCampo campo) =
      ErroCampo.ausenteOuVazio campo ::
        ((_validar_numericos dados).1.filter (citaCampo campo)) := by
    rw [List.filter_append, filtra_presenca_um dados campo campos hmem hnd hvazio]
    rfl
  have hmemtot : ErroCampo.ausenteOuVazio campo ∈
      _validar_presenca dados campos ++ (_validar_numericos dados).1 := by
    have : ErroCampo.ausenteOuVazio campo ∈
        (_validar_presenca dados campos ++
          (_validar_numericos dados).1).filter (citaCampo campo) := by
      rw [hfiltro]
      exact List.mem_cons_self _ _
    exact List.mem_of_mem_filter this
  refine ⟨_, hval, ?_, ?_, ?_, ?_⟩
  · show (_validar_presenca dados campos ++ (_validar_numericos dados).1).isEmpty = false
    cases hl : _validar_presenca dados campos ++ (_validar_numericos dados).1 with
    | nil => rw [hl] at hmemtot; exact absurd hmemtot (List.not_mem_nil _)
    | cons a t => rfl
  · exact hfiltro
  · intro hvn
    show (_validar_presenca dados campos ++
        (_validar_numericos dados).1).filter (citaCampo campo) = _
    rw [hfiltro, filtra_numericos dados campo, fold_numerico_filter dados campo hvn]
    rfl
  · intro s hs hnum
    show ErroCampo.deveriaSerNumerico campo (.vstr s) ∈
      _validar_presenca dados campos ++ (_validar_numericos dados).1
    exact List.mem_append_right _
      (numericos_mem dados _ (fold_numerico_mem dados campo s hs CAMPOS_NUMERICOS ([], []) hnum))

theorem C2_campo_vazio_corrigido_witness :
    ∃ r, validar_campos_contrato
        [("modelo", ValorEntrada.plano (.vstr "antigo_v13")),
         ("dados", ValorEntrada.dicionario [])] = .ok r ∧
      r.valido = false ∧
      r.erros_criticos.filter (citaCampo "cnpj") =
        ErroCampo.ausenteOuVazio "cnpj" ::
          ((_validar_numericos []).1.filter (citaCampo "cnpj")) ∧
      ((dget ([] : List (String × Valor)) "cnpj").getD Valor.vnone = Valor.vnone →
        r.erros_criticos.filter (citaCampo "cnpj") = [ErroCampo.ausenteOuVazio "cnpj"]) ∧
      (∀ s, (dget ([] : List (String × Valor)) "cnpj").getD Valor.vnone = .vstr s →
        "cnpj" ∈ CAMPOS_NUMERICOS →
        ErroCampo.deveriaSerNumerico "cnpj" (.vstr s) ∈ r.erros_criticos) :=
  C2_campo_vazio_corrigido "antigo_v13"
    ["nome_escola", "razao_social", "cnpj", "email_login", "email_financeiro",
     "whatsapp", "alunos_totais", "alunos_gamificados", "implantacao",
     "assinatura", "inicio_implantacao", "inicio_cobranca", "cards_enviados"]
    [] "cnpj" rfl (by decide) (by decide) rfl

end ValidadorCRM

namespace ValidadorCRM

theorem passoComparacaoCrm_esperado (dados_crm dados_contrato : List (String × Valor))
    (ws : List AvisoCrm) (t : String × String × String) :
    passoComparacaoCrm dados_crm dados_contrato ws t =
      ws ++ avisoEsperado t.1 t.2.1 t.2.2 dados_crm dados_contrato := by
  unfold passoComparacaoCrm avisoEsperado
  cases h1 : _to_number ((dget dados_crm t.1).getD .vnone) with
  | none => exact (List.append_nil ws).symm
  | some n1 =>
    cases h2 : _to_number ((dget dados_contrato t.2.1).getD .vnone) with
    | none => exact (List.append_nil ws).symm
    | some n2 =>
      dsimp only
      by_cases he : n1 = n2
      · rw [if_pos he, if_pos he]
        exact (List.append_nil ws).symm
      · rw [if_neg he, if_neg he]

theorem to_number_3500 : _to_number (.vstr "3.500") = some 3500 := by
  have h : ratDe false 3500 0 false 0 = (3500 : Rat) := by
    unfold ratDe
    norm_num
  calc _to_number (.vstr "3.500") = some (ratDe false 3500 0 false 0) := rfl
  _ = some 3500 := by rw [h]

/-- C5: the CRM-contract reconciliation emits, for each configured pair,
exactly the expected warning — one when both values parse under the
locale-tolerant parser and the parsed numbers differ, none when either side
fails to parse or when they agree — and it never raises (it is a total
function into warning lists); `"3.500"` parses as the number 3500, so CRM
`"3.500"` against contract `3500.0` yields no warning, while CRM `350`
against contract `420` yields exactly one. -/
theorem C5_reconciliacao :
    (∀ (dados_crm dados_contrato : List (String × Valor)),
      comparar_crm_contrato dados_crm dados_contrato =
        avisoEsperado "numero_alunos" "alunos_totais" "Número de alunos"
          dados_crm dados_contrato ++
        avisoEsperado "valor_implantacao" "implantacao" "Valor de implantação"
          dados_crm dados_contrato) ∧
    _to_number (.vstr "3.500") = some 3500 ∧
    comparar_crm_contrato [("numero_alunos", .vstr "3.500")]
      [("alunos_totais", .vfloat 3500)] = [] ∧
    comparar_crm_contrato [("numero_alunos", .vint 350)] [("alunos_totais", .vint 420)] =
      [.divergente "Número de alunos" (.vint 350) (.vint 420)] := by
  have hgeral : ∀ (dados_crm dados_contrato : List (String × Valor)),
      comparar_crm_contrato dados_crm dados_contrato =
        avisoEsperado "numero_alunos" "alunos_totais" "Número de alunos"
          dados_crm dados_contrato ++
        avisoEsperado "valor_implantacao" "implantacao" "Valor de implantação"
          dados_crm dados_contrato := by
    intro dados_crm dados_contrato
    show (passoComparacaoCrm dados_crm dados_contrato
      (passoComparacaoCrm dados_crm dados_contrato []
        ("numero_alunos", "alunos_totais", "Número de alunos"))
      ("valor_implantacao", "implantacao", "Valor de implantação")) = _
    rw [passoComparacaoCrm_esperado, passoComparacaoCrm_esperado, List.nil_append]
  refine ⟨hgeral, to_number_3500, ?_, ?_⟩
  · rw [hgeral]
    have h1 : avisoEsperado "numero_alunos" "alunos_totais" "Número de alunos"
        [("numero_alunos", .vstr "3.500")] [("alunos_totais", .vfloat 3500)] = [] := by
      unfold avisoEsperado
      rw [show (dget [("numero_alunos", Valor.vstr "3.500")] "numero_alunos").getD .vnone =
        .vstr "3.500" from rfl]
      rw [show (dget [("alunos_totais", Valor.vfloat 3500)] "alunos_totais").getD .vnone =
        .vfloat 3500 from rfl]
      rw [to_number_3500]
      rw [show _to_number (.vfloat 3500) = some 3500 from rfl]
      dsimp only
      rw [if_pos rfl]
    have h2 : avisoEsperado "valor_implantacao" "implantacao" "Valor de implantação"
        [("numero_alunos", .vstr "3.500")] [("alunos_totais", .vfloat 3500)] = [] := rfl
    rw [h1, h2]
    rfl
  · decide

end ValidadorCRM

namespace ValidadorCRM

theorem dget_dinsert_mesmo {α : Type} (d : List (String × α)) (k : String) (v : α) :
    dget (dinsert d k v) k = some v := by
  induction d with
  | nil => simp [dinsert, dget]
  | cons par resto ih =>
    unfold dinsert
    by_cases h : par.1 = k
    · rw [if_pos h]
      simp [dget]
    · rw [if_neg h]
      unfold dget
      rw [if_neg h]
      exact ih

theorem dget_dinsert_outro {α : Type} (d : List (String × α)) (k k2 : String) (v : α)
    (h : k ≠ k2) : dget (dinsert d k v) k2 = dget d k2 := by
  induction d with
  | nil => simp [dinsert, dget, h]
  | cons par resto ih =>
    unfold dinsert
    by_cases hp : par.1 = k
    · rw [if_pos hp]
      unfold dget
      rw [if_neg h, if_neg (hp ▸ h)]
    · rw [if_neg hp]
      unfold dget
      by_cases hp2 : par.1 = k2
      · rw [if_pos hp2, if_pos hp2]
      · rw [if_neg hp2, if_neg hp2]
        exact ih

/-- C1 (code bug): `executar_pipeline_contrato` can never produce a
`status_final` at all.  For every non-empty contract text it fails with the
`TypeError` of the extraction call, which omits the required parameter
`modelo_detectado` of `extrair_dados_contrato`; and even with that call
repaired, the injected `modelo = "comercial"` is not a key of
`CAMPOS_OBRIGATORIOS`, so `validar_campos_contrato` raises `ValueError` for
every parser result whose `dados` is a dict.  The claimed Variant-B precedence
holds only of the helper `_determinar_status_final`, which is unreachable. -/
theorem C1_pipeline_nunca_produz_status :
    (∀ (texto_contrato : String) (dados_crm : Option (List (String × Valor)))
       (resultadoExtrator : Except PyErr (List (String × ValorEntrada))),
      pyStrip texto_contrato ≠ "" →
      executar_pipeline_contrato texto_contrato dados_crm resultadoExtrator =
        .error (.argumentoObrigatorioFaltando "extrair_dados_contrato"
          ["modelo_detectado"])) ∧
    (∀ (resultadoParser : List (String × ValorEntrada)) (d : List (String × Valor)),
      (dget resultadoParser "dados").getD (.plano .vnone) = .dicionario d →
      validar_campos_contrato
        (dinsert resultadoParser "modelo" (.plano (.vstr "comercial"))) =
        .error (.modeloNaoReconhecidoCampos "comercial")) ∧
    (∀ (vc : ResultadoCampos) (ws : List AvisoCrm),
      (vc.valido = false → _determinar_status_final vc ws = "invalido") ∧
      (vc.valido = true → ws ≠ [] → _determinar_status_final vc ws = "revisao_manual") ∧
      (vc.valido = true → ws = [] → _determinar_status_final vc ws = "valido")) := by
  refine ⟨?_, ?_, ?_⟩
  · intro texto dados_crm extrator hne
    have hvazio : ¬(texto = "" ∨ pyStrip texto = "") := by
      rintro (h | h)
      · subst h
        exact hne rfl
      · exact hne h
    unfold executar_pipeline_contrato
    rw [if_neg hvazio]
    rfl
  · intro rp d hd
    have hm : (dget (dinsert rp "modelo" (.plano (.vstr "comercial"))) "modelo").getD
        (.plano .vnone) = .plano (.vstr "comercial") := by
      rw [dget_dinsert_mesmo]
      rfl
    have hdd : (dget (dinsert rp "modelo" (.plano (.vstr "comercial"))) "dados").getD
        (.plano .vnone) = .dicionario d := by
      rw [dget_dinsert_outro rp "modelo" "dados" _ (by decide)]
      exact hd
    unfold validar_campos_contrato
    rw [hm]
    dsimp only
    rw [if_neg (by decide : ¬("comercial" = "")), hdd]
    rfl
  · intro vc ws
    refine ⟨?_, ?_, ?_⟩
    · intro h
      unfold _determinar_status_final
      rw [if_pos h]
    · intro h hw
      have hw2 : ws.isEmpty = false := by
        cases ws with
        | nil => exact absurd rfl hw
        | cons a t => rfl
      unfold _determinar_status_final
      rw [if_neg (by simp [h]), if_pos hw2]
    · intro h hw
      subst hw
      unfold _determinar_status_final
      rw [if_neg (by simp [h]), if_neg (by simp)]

theorem C1_pipeline_nunca_produz_status_witness :
    executar_pipeline_contrato
      "CONTRATO DE ASSINATURA DE SOFTWARE (SaaS)\nTotal de Alunos: 420\n"
      (some [("numero_alunos", .vint 350), ("valor_implantacao", .vint 3500)])
      (.ok [("modelo", .plano (.vstr "novo")), ("dados", .dicionario [])]) =
      .error (.argumentoObrigatorioFaltando "extrair_dados_contrato"
        ["modelo_detectado"]) ∧
    validar_campos_contrato
      (dinsert [("modelo", ValorEntrada.plano (.vstr "novo")),
        ("dados", ValorEntrada.dicionario [])] "modelo" (.plano (.vstr "comercial"))) =
      .error (.modeloNaoReconhecidoCampos "comercial") ∧
    _determinar_status_final ⟨false, [ErroCampo.ausenteOuVazio "cnpj"], []⟩ [] = "invalido" ∧
    _determinar_status_final ⟨true, [], []⟩
      [.divergente "Número de alunos" (.vint 350) (.vint 420)] = "revisao_manual" ∧
    _determinar_status_final ⟨true, [], []⟩ [] = "valido" :=
  ⟨C1_pipeline_nunca_produz_status.1
      "CONTRATO DE ASSINATURA DE SOFTWARE (SaaS)\nTotal de Alunos: 420\n"
      (some [("numero_alunos", .vint 350), ("valor_implantacao", .vint 3500)])
      (.ok [("modelo", .plano (.vstr "novo")), ("dados", .dicionario [])]) (by decide),
   C1_pipeline_nunca_produz_status.2.1
      [("modelo", .plano (.vstr "novo")), ("dados", .dicionario [])] [] rfl,
   (C1_pipeline_nunca_produz_status.2.2 ⟨false, [ErroCampo.ausenteOuVazio "cnpj"], []⟩ []).1 rfl,
   (C1_pipeline_nunca_produz_status.2.2 ⟨true, [], []⟩
      [.divergente "Número de alunos" (.vint 350) (.vint 420)]).2.1 rfl (by decide),
   (C1_pipeline_nunca_produz_status.2.2 ⟨true, [], []⟩ []).2.2 rfl rfl⟩

end ValidadorCRM

namespace ValidadorCRM

theorem secao1_sem_arr (dados : List (String × Valor)) :
    ∀ campos, (secao1 dados campos).any ehArrInconsistente = false := by
  intro campos
  induction campos with
  | nil => rfl
  | cons c resto ih =>
    unfold secao1
    rw [List.any_append, ih, Bool.or_false]
    split
    · rfl
    · rfl

theorem secao2_sem_arr (dados : List (String × Valor)) :
    (secao2 dados).any ehArrInconsistente = false := by
  unfold secao2
  dsimp only
  repeat' split
  all_goals rfl

theorem secao3_sem_arr (dados : List (String × Valor)) :
    (secao3 dados).any ehArrInconsistente = false := by
  unfold secao3
  dsimp only
  repeat' split
  all_goals rfl

theorem secao4_sem_arr (dados : List (String × Valor)) :
    (secao4 dados).any ehArrInconsistente = false := by
  unfold secao4
  dsimp only
  repeat' split
  all_goals rfl

theorem secao7_sem_arr (dados : List (String × Valor)) :
    (secao7 dados).any ehArrInconsistente = false := by
  unfold secao7
  dsimp only
  repeat' split
  all_goals rfl

theorem secao8_sem_arr (dados : List (String × Valor)) :
    (secao8 dados).any ehArrInconsistente = false := by
  unfold secao8
  dsimp only
  repeat' split
  all_goals rfl

theorem secao9_sem_arr (dados : List (String × Valor)) :
    (secao9 dados).any ehArrInconsistente = false := by
  unfold secao9
  dsimp only
  repeat' split
  all_goals rfl

theorem validar_crm_any_arr (dados : List (String × Valor)) :
    (validar_crm dados).erros.any ehArrInconsistente =
      (secao6 dados).any ehArrInconsistente := by
  have herros : (validar_crm dados).erros =
      secao1 dados CAMPOS_OBRIGATORIOS_CRM ++ secao2 dados ++ secao3 dados ++
      secao4 dados ++ secao6 dados ++ secao7 dados ++ secao8 dados ++ secao9 dados := rfl
  rw [herros]
  simp [List.any_append, secao1_sem_arr, secao2_sem_arr, secao3_sem_arr,
    secao4_sem_arr, secao7_sem_arr, secao8_sem_arr, secao9_sem_arr]

theorem mrrValido_de (dados : List (String × Valor)) (qm : Rat)
    (hmf : pyFloatDe (valorDe dados "mrr") = some qm) (h0 : 0 < qm)
    (hmn : eNoneOuVazia (valorDe dados "mrr") = false) :
    mrrValido dados = true := by
  unfold mrrValido
  dsimp only
  rw [hmn]
  rw [if_neg (by decide : ¬(false = true))]
  have hnum : _is_numeric (valorDe dados "mrr") = true := by
    unfold _is_numeric
    rw [hmf]
    rfl
  rw [hnum]
  rw [if_neg (by decide : ¬(true = false))]
  rw [hmf]
  exact decide_eq_true h0

theorem secao6_eq (dados : List (String × Valor)) (qm qa : Rat)
    (hmf : pyFloatDe (valorDe dados "mrr") = some qm) (h0 : 0 < qm)
    (hmn : eNoneOuVazia (valorDe dados "mrr") = false)
    (han : eNoneOuVazia (valorDe dados "arr") = false)
    (haf : pyFloatDe (valorDe dados "arr") = some qa) :
    secao6 dados =
      if pyRound10 qa ≠ pyRound10 (qm * 12) then
        [.arrInconsistente (pyRound10 (qm * 12)) qa]
      else [] := by
  unfold secao6
  dsimp only
  rw [han, if_neg (by decide : ¬(false = true))]
  have hnum : _is_numeric (valorDe dados "arr") = true := by
    unfold _is_numeric
    rw [haf]
    rfl
  rw [hnum, if_neg (by decide : ¬(true = false))]
  rw [mrrValido_de dados qm hmf h0 hmn, if_pos rfl]
  rw [hmf, haf]

/-- C10: whenever `mrr` is present, non-empty, numeric and positive and `arr`
is present, non-empty and numeric, `validar_crm` appends the arr-consistency
error exactly when `arr` rounded to 10 decimal places differs from `12 × mrr`
rounded to 10 decimal places; that error forces `status = "invalido"`, and an
`arr` equal to exactly `12 × mrr` contributes no such error. -/
theorem C10_arr_consistencia :
    ∀ (dados : List (String × Valor)) (qm qa : Rat),
      pyFloatDe (valorDe dados "mrr") = some qm →
      0 < qm →
      eNoneOuVazia (valorDe dados "mrr") = false →
      eNoneOuVazia (valorDe dados "arr") = false →
      pyFloatDe (valorDe dados "arr") = some qa →
      (((validar_crm dados).erros.any ehArrInconsistente = true) ↔
          pyRound10 qa ≠ pyRound10 (qm * 12)) ∧
      (pyRound10 qa ≠ pyRound10 (qm * 12) → (validar_crm dados).status = "invalido") ∧
      (qa = 12 * qm → (validar_crm dados).erros.any ehArrInconsistente = false) := by
  intro dados qm qa hmf h0 hmn han haf
  have hs6 := secao6_eq dados qm qa hmf h0 hmn han haf
  have hany := validar_crm_any_arr dados
  have hiff : ((validar_crm dados).erros.any ehArrInconsistente = true) ↔
      pyRound10 qa ≠ pyRound10 (qm * 12) := by
    rw [hany, hs6]
    by_cases hne : pyRound10 qa ≠ pyRound10 (qm * 12)
    · rw [if_pos hne]
      exact ⟨fun _ => hne, fun _ => rfl⟩
    · rw [if_neg hne]
      exact ⟨fun h => absurd h (by decide), fun h => absurd h hne⟩
  refine ⟨hiff, ?_, ?_⟩
  · intro hne
    have hqq : (validar_crm dados).erros.any ehArrInconsistente = true := hiff.mpr hne
    have hnil : (validar_crm dados).erros ≠ [] := by
      intro h
      rw [h] at hqq
      exact absurd hqq (by decide)
    have hstat : (validar_crm dados).status =
        if (validar_crm dados).erros.isEmpty then "valido" else "invalido" := rfl
    rw [hstat]
    cases herr : (validar_crm dados).erros with
    | nil => exact absurd herr hnil
    | cons a t => rfl
  · intro heq
    have hpr : pyRound10 qa = pyRound10 (qm * 12) := by
      rw [heq, mul_comm]
    cases hb : (validar_crm dados).erros.any ehArrInconsistente with
    | false => rfl
    | true => exact absurd (hiff.mp hb) (not_not.mpr hpr)

theorem C10_arr_consistencia_witness :
    (((validar_crm [("mrr", .vfloat 1500), ("arr", .vfloat 18000)]).erros.any
        ehArrInconsistente = true) ↔
      pyRound10 18000 ≠ pyRound10 ((1500 : Rat) * 12)) ∧
    (pyRound10 18000 ≠ pyRound10 ((1500 : Rat) * 12) →
      (validar_crm [("mrr", .vfloat 1500), ("arr", .vfloat 18000)]).status = "invalido") ∧
    ((18000 : Rat) = 12 * 1500 →
      (validar_crm [("mrr", .vfloat 1500), ("arr", .vfloat 18000)]).erros.any
        ehArrInconsistente = false) :=
  C10_arr_consistencia [("mrr", .vfloat 1500), ("arr", .vfloat 18000)] 1500 18000
    rfl (by norm_num) rfl rfl rfl

end ValidadorCRM
